import Mathlib

/-!
Verification development for the agent-orchestration core of the
checkmeasure-ai repository (src/backend/core/agents/).

The Python modules are shallowly embedded as Lean definitions:
  * project_orchestrator.py : ProjectTask / Project data model, the
    orchestrator's queueing, scheduling, assignment and response handlers,
    modelled as pure functions on an explicit OrchState record;
  * base_agent.py : the agent's task-request handling and processing loop;
  * event_bus.py : publish / history and broadcast delivery;
  * agent_manager.py : restart policy of _attempt_agent_restart.

Modelling conventions:
  * datetime-valued fields (created_at, started_at, ...) and the free-form
    input/output payload dicts do not influence any control flow relevant
    here, so they are omitted from the records;
  * uuid4-generated ids are supplied by the caller as strings;
  * Python dicts keyed by strings are embedded as association lists, and
    the asyncio.PriorityQueue is embedded as a list of (priority, task id)
    entries in insertion order whose pop takes a minimal-priority entry
    (the exact heapq comparison semantics, including its TypeError on
    tie-broken comparisons of ProjectTask values, is modelled separately
    for the claim about queue totality);
  * the agent objects the orchestrator reads (capabilities, status) are
    inputs of the orchestrator state; their own status dynamics are
    modelled separately for the agent state-machine claim.
-/

/-- ProjectStatus enum of project_orchestrator.py (used for both projects
and tasks in the source). -/
inductive ProjectStatus where
  | pending
  | in_progress
  | completed
  | failed
  | cancelled
deriving DecidableEq, Repr

/-- TaskPriority enum of project_orchestrator.py. -/
inductive TaskPriority where
  | low
  | medium
  | high
  | critical
deriving DecidableEq, Repr

/-- Numeric values of the TaskPriority enum (LOW = 1 ... CRITICAL = 4). -/
def TaskPriority.value : TaskPriority → Int
  | .low => 1
  | .medium => 2
  | .high => 3
  | .critical => 4

/-- AgentStatus enum of base_agent.py. -/
inductive AgentStatus where
  | idle
  | working
  | error
  | completed
  | failed
deriving DecidableEq, Repr

/-- ProjectTask dataclass of project_orchestrator.py (time-valued fields
and the payload dicts omitted; retry counts are the non-negative integers
the code ever produces). -/
structure ProjectTask where
  id : String
  name : String := ""
  description : String := ""
  task_type : String := ""
  priority : TaskPriority := .medium
  dependencies : List String := []
  required_capabilities : List String := []
  assigned_agent : Option String := none
  status : ProjectStatus := .pending
  retry_count : Nat := 0
  max_retries : Nat := 3
  error_message : Option String := none
deriving DecidableEq, Repr

/-- The orchestrator-visible part of a registered agent: its id, the names
of its AgentCapability entries, and its (self-reported) AgentStatus. -/
structure AgentInfo where
  agent_id : String
  capabilities : List String
  status : AgentStatus := .idle
deriving DecidableEq, Repr

/-- The mutable state of one ProjectOrchestrator restricted to a single
project: the project's task list, the priority queue (entries are
(priority, task id)), the active_tasks keys, the registered agents and the
agent_workloads dict. -/
structure OrchState where
  tasks : List ProjectTask
  task_queue : List (Int × String)
  active_tasks : List String
  agents : List AgentInfo
  agent_workloads : List (String × Int)
deriving DecidableEq, Repr

/-- Lookup in an association list (Python dict .get with default 0). -/
def getW (ws : List (String × Int)) (a : String) : Int :=
  match ws.find? (fun p => p.1 == a) with
  | some p => p.2
  | none => 0

/-- Store into an association list (Python dict item assignment: update in
place if the key exists, else append). -/
def setW : List (String × Int) → String → Int → List (String × Int)
  | [], a, v => [(a, v)]
  | (b, w) :: rest, a, v =>
      if b == a then (b, v) :: rest else (b, w) :: setW rest a v

/-- Update the task object with the given id inside the project task list
(in the source the objects are shared by reference, so mutating the found
object mutates the list entry). -/
def updateTask (tasks : List ProjectTask) (tid : String)
    (f : ProjectTask → ProjectTask) : List ProjectTask :=
  tasks.map (fun t => if t.id == tid then f t else t)

/-- ProjectOrchestrator._are_dependencies_met: true iff every id in
task.dependencies names a task of the project whose status is COMPLETED
(a missing id makes it false). -/
def are_dependencies_met (task : ProjectTask) (tasks : List ProjectTask) : Bool :=
  task.dependencies.all (fun depId =>
    match tasks.find? (fun t => t.id == depId) with
    | some dep => dep.status == ProjectStatus.completed
    | none => false)

/-- One put of ProjectOrchestrator._queue_ready_tasks: enqueue
(-priority.value, task) and set the task status to IN_PROGRESS. -/
def queuePut (s : OrchState) (t : ProjectTask) : OrchState :=
  { s with
    task_queue := s.task_queue ++ [(-(t.priority.value), t.id)],
    tasks := updateTask s.tasks t.id (fun u => { u with status := .in_progress }) }

/-- The loop body of ProjectOrchestrator._queue_ready_tasks, iterating the
project's tasks in order against the evolving state. -/
def queueReadyAux : List String → OrchState → OrchState
  | [], s => s
  | tid :: rest, s =>
      match s.tasks.find? (fun t => t.id == tid) with
      | some t =>
          if t.status == ProjectStatus.pending && are_dependencies_met t s.tasks then
            queueReadyAux rest (queuePut s t)
          else
            queueReadyAux rest s
      | none => queueReadyAux rest s

/-- ProjectOrchestrator._queue_ready_tasks: every PENDING task whose
dependencies are met is pushed on the priority queue and marked
IN_PROGRESS. -/
def queue_ready_tasks (s : OrchState) : OrchState :=
  queueReadyAux (s.tasks.map (fun t => t.id)) s

/-- Python subset test required_capabilities.issubset(agent_capabilities). -/
def capSubset (req caps : List String) : Bool :=
  req.all (fun c => caps.contains c)

/-- Python set equality agent_capabilities == required_capabilities. -/
def capSetEq (a b : List String) : Bool :=
  capSubset a b && capSubset b a

/-- Maximum of a list of (score, agent id) pairs in the lexicographic tuple
order used by Python list.sort(reverse=True) followed by taking the first
element. -/
def scoreMax : List (Int × String) → Option (Int × String)
  | [] => none
  | x :: xs =>
      some (xs.foldl
        (fun m y => if m.1 < y.1 || (m.1 == y.1 && m.2 < y.2) then y else m) x)

/-- ProjectOrchestrator._find_best_agent: among the registered agents that
have the required capabilities and are IDLE or COMPLETED, score each by
minus its workload plus a bonus of 10 for an exact capability match, and
return the id of the best-scoring one. -/
def find_best_agent (task : ProjectTask) (s : OrchState) : Option String :=
  let suitable := s.agents.filterMap (fun a =>
    if capSubset task.required_capabilities a.capabilities then
      if a.status == AgentStatus.idle || a.status == AgentStatus.completed then
        let workload := getW s.agent_workloads a.agent_id
        let score :=
          -workload + (if capSetEq a.capabilities task.required_capabilities then 10 else 0)
        some (score, a.agent_id)
      else none
    else none)
  (scoreMax suitable).map (fun p => p.2)

/-- ProjectOrchestrator._assign_task_to_agent: stamp assigned_agent, record
the task in active_tasks, increment the chosen agent's workload (the
TaskRequest publication carries no further orchestrator state). -/
def assign_task_to_agent (s : OrchState) (tid : String) (agent_id : String) : OrchState :=
  { s with
    tasks := updateTask s.tasks tid (fun t => { t with assigned_agent := some agent_id }),
    active_tasks :=
      if s.active_tasks.contains tid then s.active_tasks else s.active_tasks ++ [tid],
    agent_workloads := setW s.agent_workloads agent_id (getW s.agent_workloads agent_id + 1) }

/-- A minimal entry of the queue (the asyncio.PriorityQueue dequeues a
smallest entry first). -/
def minEntry : (Int × String) → List (Int × String) → (Int × String)
  | e, [] => e
  | e, x :: xs => if x.1 < e.1 then minEntry x xs else minEntry e xs

/-- Remove the first occurrence of an entry from the queue. -/
def removeFirst : List (Int × String) → (Int × String) → List (Int × String)
  | [], _ => []
  | x :: xs, e => if x == e then xs else x :: removeFirst xs e

/-- Pop a minimal entry off the queue list. -/
def popMin (q : List (Int × String)) : Option ((Int × String) × List (Int × String)) :=
  match q with
  | [] => none
  | x :: xs =>
      let m := minEntry x xs
      some (m, removeFirst (x :: xs) m)

/-- The while loop of ProjectOrchestrator._schedule_ready_tasks: pop a
task, find the best agent, assign on success; on failure put the entry
back and stop. The fuel is the initial queue length: every continuing
iteration consumes one queue entry. -/
def scheduleAux : Nat → OrchState → OrchState
  | 0, s => s
  | fuel + 1, s =>
      match popMin s.task_queue with
      | none => s
      | some (e, rest) =>
          let s1 := { s with task_queue := rest }
          match s1.tasks.find? (fun t => t.id == e.2) with
          | none => scheduleAux fuel s1
          | some t =>
              match find_best_agent t s1 with
              | some aid => scheduleAux fuel (assign_task_to_agent s1 e.2 aid)
              | none => { s1 with task_queue := rest ++ [e] }

/-- ProjectOrchestrator._schedule_ready_tasks. -/
def schedule_ready_tasks (s : OrchState) : OrchState :=
  scheduleAux s.task_queue.length s

/-- ProjectOrchestrator._handle_task_completion followed by
_check_for_newly_ready_tasks: mark the task COMPLETED, decrement the
assigned agent's workload, drop it from active_tasks and re-queue any
newly ready task of its project. -/
def handle_task_completion (s : OrchState) (tid : String) : OrchState :=
  match s.tasks.find? (fun t => t.id == tid) with
  | none => s
  | some t =>
      let s1 := { s with
        tasks := updateTask s.tasks tid (fun u => { u with status := .completed }) }
      let s2 :=
        match t.assigned_agent with
        | some a =>
            { s1 with agent_workloads := setW s1.agent_workloads a (getW s1.agent_workloads a - 1) }
        | none => s1
      let s3 := { s2 with active_tasks := s2.active_tasks.filter (fun x => x != tid) }
      queue_ready_tasks s3

/-- ProjectOrchestrator._handle_task_failure: increment retry_count and
decrement the assigned agent's workload; below max_retries reset the task
to PENDING, unassigned, and re-queue it at decayed priority, otherwise
mark it FAILED; in both cases drop it from active_tasks. -/
def handle_task_failure (s : OrchState) (tid : String) (error : String) : OrchState :=
  match s.tasks.find? (fun t => t.id == tid) with
  | none => s
  | some t =>
      let newRetry := t.retry_count + 1
      let tasks1 := updateTask s.tasks tid
        (fun u => { u with error_message := some error, retry_count := newRetry })
      let ws1 :=
        match t.assigned_agent with
        | some a => setW s.agent_workloads a (getW s.agent_workloads a - 1)
        | none => s.agent_workloads
      if newRetry < t.max_retries then
        { tasks := updateTask tasks1 tid
            (fun u => { u with status := .pending, assigned_agent := none }),
          task_queue := s.task_queue ++ [(-(t.priority.value - 1), tid)],
          active_tasks := s.active_tasks.filter (fun x => x != tid),
          agents := s.agents,
          agent_workloads := ws1 }
      else
        { tasks := updateTask tasks1 tid (fun u => { u with status := .failed }),
          task_queue := s.task_queue,
          active_tasks := s.active_tasks.filter (fun x => x != tid),
          agents := s.agents,
          agent_workloads := ws1 }

/-- ProjectOrchestrator._handle_task_response: ignore responses whose
task_id is not in active_tasks; dispatch on the reported status; the
"accepted" branch only logs, and any other status (in particular
"rejected") falls through with no state change. -/
def handle_task_response (s : OrchState) (tid : String) (status : String)
    (error : String) : OrchState :=
  if s.active_tasks.contains tid then
    if status == "completed" then handle_task_completion s tid
    else if status == "failed" then handle_task_failure s tid error
    else s
  else s

/-- ProjectOrchestrator._handle_agent_status: overwrite the sender's
workload entry with the queue_size reported in the payload. -/
def handle_agent_status (s : OrchState) (sender : String) (queue_size : Int) : OrchState :=
  { s with agent_workloads := setW s.agent_workloads sender queue_size }

/-- The caller-supplied task_data dict consumed by
ProjectOrchestrator.create_project (the uuid4 id is made explicit). -/
structure TaskSpec where
  id : String
  name : String := ""
  description : String := ""
  task_type : String := ""
  priority : TaskPriority := .medium
  dependencies : List String := []
  capabilities : List String := []
  max_retries : Nat := 3
deriving DecidableEq, Repr

/-- Task construction inside ProjectOrchestrator.create_project. -/
def mkTask (spec : TaskSpec) : ProjectTask :=
  { id := spec.id,
    name := spec.name,
    description := spec.description,
    task_type := spec.task_type,
    priority := spec.priority,
    dependencies := spec.dependencies,
    required_capabilities := spec.capabilities,
    max_retries := spec.max_retries }

/-- The orchestrator state right after create_project plus register_agent
for each agent (register_agent initialises the agent's workload to 0);
start_project then performs the first queue_ready_tasks. -/
def init_orchestrator (specs : List TaskSpec) (agents : List AgentInfo) : OrchState :=
  { tasks := specs.map mkTask,
    task_queue := [],
    active_tasks := [],
    agents := agents,
    agent_workloads := agents.foldl (fun ws a => setW ws a.agent_id 0) [] }

/-- One asynchronous event processed by the orchestrator: a scheduling or
queueing pass of the coordination loop, a TaskResponse from some agent, or
a StatusUpdate from some agent. The response and status events range over
arbitrary senders and payloads, which covers every delivery order the
event bus can produce. -/
inductive OrchStep : OrchState → OrchState → Prop
  | queue_ready (s : OrchState) : OrchStep s (queue_ready_tasks s)
  | schedule (s : OrchState) : OrchStep s (schedule_ready_tasks s)
  | response (s : OrchState) (tid status error : String) :
      OrchStep s (handle_task_response s tid status error)
  | status_update (s : OrchState) (sender : String) (queue_size : Int) :
      OrchStep s (handle_agent_status s sender queue_size)

/-- The orchestrator events with StatusUpdate handling excluded. -/
inductive OrchStepNS : OrchState → OrchState → Prop
  | queue_ready (s : OrchState) : OrchStepNS s (queue_ready_tasks s)
  | schedule (s : OrchState) : OrchStepNS s (schedule_ready_tasks s)
  | response (s : OrchState) (tid status error : String) :
      OrchStepNS s (handle_task_response s tid status error)

/-- A freshly started orchestrator state: empty queue and active set, all
tasks pending and unassigned, workload entries non-negative. -/
def InitOrch (s : OrchState) : Prop :=
  s.task_queue = [] ∧ s.active_tasks = [] ∧
  (∀ t ∈ s.tasks, t.status = ProjectStatus.pending ∧ t.assigned_agent = none) ∧
  (∀ p ∈ s.agent_workloads, 0 ≤ p.2) ∧
  (s.tasks.map (fun t => t.id)).Nodup

instance (s : OrchState) : Decidable (InitOrch s) := by
  unfold InitOrch
  infer_instance

/-- An execution trace of the orchestrator, most recent state first. -/
inductive RTrace : List OrchState → Prop
  | init (s0 : OrchState) (h : InitOrch s0) : RTrace [s0]
  | step (s t : OrchState) (hist : List OrchState)
      (hh : RTrace (s :: hist)) (hs : OrchStep s t) : RTrace (t :: s :: hist)

/-- Reachability without StatusUpdate events. -/
inductive ReachNS : OrchState → OrchState → Prop
  | refl (s : OrchState) : ReachNS s s
  | step (s t u : OrchState) (h : ReachNS s t) (hs : OrchStepNS t u) : ReachNS s u

/-! ## Event bus (event_bus.py) -/

/-- The AgentMessage dataclass of base_agent.py restricted to the fields
the bus bookkeeping uses (payload elided). -/
structure BusMessage where
  id : String
  sender_id : String := ""
  recipient_id : Option String := none
  message_type : String := "task_request"
deriving DecidableEq, Repr

/-- The EventBus state touched by publish and the history accessors. -/
structure BusState where
  message_history : List BusMessage
  message_queue : List BusMessage
deriving DecidableEq, Repr

/-- EventBus.publish: append the message to message_history and enqueue it
on the processing queue; no truncation of any kind is performed. -/
def publish (b : BusState) (m : BusMessage) : BusState :=
  { message_history := b.message_history ++ [m],
    message_queue := b.message_queue ++ [m] }

/-- A sequence of publish calls. -/
def publishAll (b : BusState) (ms : List BusMessage) : BusState :=
  ms.foldl publish b

/-- The bus state at construction. -/
def emptyBus : BusState := { message_history := [], message_queue := [] }

/-- EventBus.get_message_history: the view messages[-limit:] of the
retained history (Python slicing with -0 yields the whole list, hence the
special case at limit 0); the filter and per-message projection do not
change its length bound. -/
def get_message_history (limit : Nat) (hist : List BusMessage) : List BusMessage :=
  if limit == 0 then hist else hist.drop (hist.length - limit)

/-- A broadcast subscriber as the bus sees it: an identity plus whether
its handler raises on this delivery. -/
structure Subscriber where
  sid : String
  raises : Bool
deriving DecidableEq, Repr

/-- The per-subscriber delivery logs (subscriber id to received message
ids). -/
def DeliveryLog := List (String × List String)

/-- Append a message id to one subscriber's log. -/
def logDeliver (log : List (String × List String)) (sid mid : String) :
    List (String × List String) :=
  match log with
  | [] => [(sid, [mid])]
  | (b, ms) :: rest =>
      if b == sid then (b, ms ++ [mid]) :: rest else (b, ms) :: logDeliver rest sid mid

/-- What one subscriber has received so far. -/
def receivedBy (log : List (String × List String)) (sid : String) : List String :=
  match log.find? (fun p => p.1 == sid) with
  | some p => p.2
  | none => []

/-- Invoking a subscriber's handler: a raising handler produces an
exception and no delivery effect, any other handler records the message. -/
def invokeSubscriber (sub : Subscriber) (mid : String)
    (log : List (String × List String)) : Except String (List (String × List String)) :=
  if sub.raises then Except.error "handler raised" else Except.ok (logDeliver log sub.sid mid)

/-- EventBus._safe_deliver_to_subscriber: run the handler and swallow any
exception so it cannot propagate (the source logs and deliberately does
not re-raise). -/
def safe_deliver_to_subscriber (sub : Subscriber) (mid : String)
    (log : List (String × List String)) : List (String × List String) :=
  match invokeSubscriber sub mid log with
  | Except.ok log2 => log2
  | Except.error _ => log

/-- EventBus._broadcast_message: fan the message out to every subscriber
of its type through the safe delivery wrapper; asyncio.gather with
return_exceptions=True collects the results without ever raising, so the
fan-out is total. -/
def broadcast_message (subs : List Subscriber) (mid : String)
    (log : List (String × List String)) : List (String × List String) :=
  subs.foldl (fun acc sub => safe_deliver_to_subscriber sub mid acc) log

/-! ## Agent actor (base_agent.py) -/

/-- AgentCapability dataclass of base_agent.py. -/
structure AgentCapability where
  name : String
  description : String := ""
  input_types : List String := []
  output_types : List String := []
  dependencies : List String := []
deriving DecidableEq, Repr

/-- The payload of a TaskRequest as read by the agent. -/
structure TaskRequestMsg where
  task_id : String
  task_type : String
deriving DecidableEq, Repr

/-- BaseAgent._can_handle_task: the task type must match the name of one
of the agent's capabilities. -/
def can_handle_task (caps : List AgentCapability) (m : TaskRequestMsg) : Bool :=
  caps.any (fun c => c.name == m.task_type)

/-- BaseAgent._handle_task_request: reject unsupported tasks without
queueing them, otherwise enqueue and acknowledge. Result: the task queue
after the call and the status field of the TaskResponse sent. -/
def agent_handle_task_request (caps : List AgentCapability)
    (queue : List TaskRequestMsg) (m : TaskRequestMsg) :
    List TaskRequestMsg × String :=
  if can_handle_task caps m then (queue ++ [m], "accepted")
  else (queue, "rejected")

/-- The agent-local state of BaseAgent driven by its main loop. -/
structure AgentSt where
  status : AgentStatus := .idle
  task_queue : List TaskRequestMsg := []
  tasks_completed : Nat := 0
  tasks_failed : Nat := 0
deriving DecidableEq, Repr

/-- BaseAgent._process_task for a dequeued request, with the outcome of
the abstract execute_task supplied as a boolean: the status becomes
WORKING for the execution, then COMPLETED on success or FAILED on
exception; no branch restores IDLE. The returned list is the sequence of
statuses broadcast by the status updates during the call. -/
def process_task (execOk : Bool) (st : AgentSt) : AgentSt × List AgentStatus :=
  if execOk then
    ({ st with status := .completed, tasks_completed := st.tasks_completed + 1 },
     [AgentStatus.working, .completed])
  else
    ({ st with status := .failed, tasks_failed := st.tasks_failed + 1 },
     [AgentStatus.working, .failed])

/-- One iteration of BaseAgent._main_loop: if the queue is non-empty,
dequeue the next request and process it; the agent's status at the moment
the task is taken is the status left by the previous iteration. -/
def main_loop_iter (execOk : Bool) (st : AgentSt) : AgentSt × List AgentStatus :=
  match st.task_queue with
  | [] => (st, [])
  | _ :: rest =>
      let r := process_task execOk { st with task_queue := rest }
      (r.1, r.2)

/-! ## Agent manager restart policy (agent_manager.py) -/

/-- The AgentManager bookkeeping for one supervised agent. -/
structure MgrState where
  restart_attempts : Nat := 0
  failed_reason : Option String := none
  last_restart_time : Option Nat := none
  total_restarts : Nat := 0
  restarts_performed : Nat := 0
deriving DecidableEq, Repr

/-- Manager configuration (max_restart_attempts defaults to 3 and
restart_cooldown to 300 seconds in the source). -/
structure MgrConfig where
  max_restart_attempts : Nat := 3
  restart_cooldown : Nat := 300
deriving DecidableEq, Repr

/-- AgentManager._attempt_agent_restart: skip when still in the cooldown
window; when the attempt counter has reached max_restart_attempts, record
the agent as failed with the reason string and do not restart; otherwise
perform the stop/start cycle (its success supplied as a boolean): success
resets the counter, stamps the restart time and clears the failure record,
failure increments the counter. restarts_performed counts the stop/start
cycles actually executed. -/
def attempt_agent_restart (cfg : MgrConfig) (now : Nat) (restartOk : Bool)
    (st : MgrState) : MgrState :=
  match st.last_restart_time with
  | some tlast =>
      if now - tlast < cfg.restart_cooldown then st
      else attemptCore cfg now restartOk st
  | none => attemptCore cfg now restartOk st
where
  attemptCore (cfg : MgrConfig) (now : Nat) (restartOk : Bool) (st : MgrState) : MgrState :=
    if st.restart_attempts ≥ cfg.max_restart_attempts then
      { st with failed_reason := some "Max restart attempts exceeded" }
    else if restartOk then
      { st with
        restart_attempts := 0,
        last_restart_time := some now,
        total_restarts := st.total_restarts + 1,
        restarts_performed := st.restarts_performed + 1,
        failed_reason := none }
    else
      { st with
        restart_attempts := st.restart_attempts + 1,
        restarts_performed := st.restarts_performed + 1 }

/-- A run of health-check-triggered restart attempts that all fail
(the repeatedly unhealthy agent of the restart-cap property). -/
def failingRestartRun (cfg : MgrConfig) : Nat → MgrState
  | 0 => {}
  | n + 1 => attempt_agent_restart cfg n false (failingRestartRun cfg n)

/-! ## The real priority queue: heapq on (priority, ProjectTask) tuples -/

/-- CPython comparison of two (int, ProjectTask) tuples: compare the
integers; on a tie, fall back to the ProjectTask components, which
dataclasses compare for equality field by field but do not order, so a
tie between distinct tasks raises TypeError. -/
def tupleLt (a b : Int × ProjectTask) : Except String Bool :=
  if a.1 == b.1 then
    if a.2 == b.2 then Except.ok false
    else Except.error "TypeError: ProjectTask is not orderable"
  else Except.ok (a.1 < b.1)

/-- heapq._siftdown: walk the new item up from position pos toward
startpos, moving larger parents down; any comparison failure propagates.
The fuel bounds the walk by the position, which only decreases. -/
def siftdown : Nat → List (Int × ProjectTask) → Nat → Nat → (Int × ProjectTask) →
    Except String (List (Int × ProjectTask))
  | 0, heap, _, pos, newitem => Except.ok (heap.set pos newitem)
  | fuel + 1, heap, startpos, pos, newitem =>
      if pos > startpos then
        let parentpos := (pos - 1) / 2
        let parent := heap.getD parentpos (0, { id := "" })
        match tupleLt newitem parent with
        | Except.error e => Except.error e
        | Except.ok true => siftdown fuel (heap.set pos parent) startpos parentpos newitem
        | Except.ok false => Except.ok (heap.set pos newitem)
      else Except.ok (heap.set pos newitem)

/-- heapq.heappush: append the item and sift it toward the root. -/
def heappush (heap : List (Int × ProjectTask)) (item : Int × ProjectTask) :
    Except String (List (Int × ProjectTask)) :=
  let h := heap ++ [item]
  siftdown h.length h 0 (h.length - 1) item

/-- ProjectOrchestrator._queue_ready_tasks against the real heap-backed
asyncio.PriorityQueue: push (-priority.value, task) for every pending task
whose dependencies are met; a TypeError raised by a push aborts the loop
and propagates out of the method. -/
def queue_ready_tasks_heap (tasks : List ProjectTask) :
    Except String (List (Int × ProjectTask)) :=
  tasks.foldlM
    (fun heap t =>
      if t.status == ProjectStatus.pending && are_dependencies_met t tasks then
        heappush heap (-(t.priority.value), t)
      else Except.ok heap)
    []

/-! ## Derived observations and concrete scenario states -/

/-- Whether the task named tid is currently assigned to agent a (lookup of
the task object as the handlers perform it). -/
def assignLk (ts : List ProjectTask) (tid a : String) : Bool :=
  match ts.find? (fun t => t.id == tid) with
  | some t => t.assigned_agent == some a
  | none => false

/-- The number of active tasks currently assigned to agent a. -/
def countAssigned (s : OrchState) (a : String) : Nat :=
  (s.active_tasks.filter (fun tid => assignLk s.tasks tid a)).length

/-- Scenario for the workload claim: one capable task, one capable agent. -/
def c3s0 : OrchState := init_orchestrator
  [{ id := "t1", capabilities := ["c"] }]
  [{ agent_id := "a1", capabilities := ["c"] }]

def c3s1 : OrchState := queue_ready_tasks c3s0

def c3s2 : OrchState := schedule_ready_tasks c3s1

/-- The agent reports queue_size 0 in a StatusUpdate after dequeuing the
task, and _handle_agent_status overwrites the workload with it. -/
def c3s3 : OrchState := handle_agent_status c3s2 "a1" 0

def c3s4 : OrchState := handle_task_response c3s3 "t1" "completed" ""

/-- Scenario for the one-task-per-agent claim: two ready tasks of distinct
priorities, a single idle agent. -/
def c4s0 : OrchState := init_orchestrator
  [{ id := "t1", priority := .high, capabilities := ["c"] },
   { id := "t2", priority := .medium, capabilities := ["c"] }]
  [{ agent_id := "a1", capabilities := ["c"] }]

def c4s1 : OrchState := queue_ready_tasks c4s0

def c4s2 : OrchState := schedule_ready_tasks c4s1

/-- The capability-gating scenario of the spec: the orchestrator matches on
required_capabilities while the agent matches the task type against its
capability names, so an assigned task can still be rejected. -/
def c5s0 : OrchState := init_orchestrator
  [{ id := "t1", task_type := "load_calculation",
     capabilities := ["joist_calculation"] }]
  [{ agent_id := "a1", capabilities := ["joist_calculation"] }]

def c5s1 : OrchState := queue_ready_tasks c5s0

def c5s2 : OrchState := schedule_ready_tasks c5s1

def c5s3 : OrchState := handle_task_response c5s2 "t1" "rejected" "Task not supported"

def c5agentCaps : List AgentCapability := [{ name := "joist_calculation" }]

def c5request : TaskRequestMsg := { task_id := "t1", task_type := "load_calculation" }

/-- Broadcast-isolation scenario: three subscribers, the middle one raises. -/
def c6subA : Subscriber := { sid := "alpha", raises := false }

def c6subB : Subscriber := { sid := "beta", raises := true }

def c6subC : Subscriber := { sid := "gamma", raises := false }

/-- An agent with two queued requests, for the state-machine claim. -/
def c9req (n : String) : TaskRequestMsg := { task_id := n, task_type := "c" }

def c9a0 : AgentSt := { task_queue := [c9req "1", c9req "2"] }

def c9a1 : AgentSt := (main_loop_iter true c9a0).1

/-- Two distinct ready tasks sharing the default MEDIUM priority. -/
def c10tA : ProjectTask := { id := "tA" }

def c10tB : ProjectTask := { id := "tB" }

/-- Bounded-retry scenario: a single task (max_retries m) and a single
capable agent; the agent fails every execution. -/
def c2spec (m : Nat) : TaskSpec := { id := "t1", capabilities := ["c"], max_retries := m }

def c2agent : AgentInfo := { agent_id := "a1", capabilities := ["c"] }

def c2s00 (m : Nat) : OrchState := init_orchestrator [c2spec m] [c2agent]

def c2init (m : Nat) : OrchState := queue_ready_tasks (c2s00 m)

/-- One failure round: the coordination loop schedules the queued task and
the assigned agent answers with a failed TaskResponse. -/
def failCycle (s : OrchState) : OrchState :=
  handle_task_response (schedule_ready_tasks s) "t1" "failed" "boom"

/-- The orchestrator state after k failure rounds of the always-failing
task. -/
def failRun (m : Nat) : Nat → OrchState
  | 0 => c2init m
  | k + 1 => failCycle (failRun m k)

/-- The shape of the single task during the retry run. -/
def c2task (m k : Nat) (st : ProjectStatus) (ag : Option String) : ProjectTask :=
  { id := "t1", required_capabilities := ["c"], status := st, assigned_agent := ag,
    retry_count := k, max_retries := m, error_message := some "boom" }

/-- The state between failure k and re-assignment (1 ≤ k < m): the task is
PENDING, unassigned, re-queued at the decayed priority -1. -/
def c2pend (m k : Nat) : OrchState :=
  { tasks := [c2task m k .pending none], task_queue := [(-1, "t1")],
    active_tasks := [], agents := [c2agent], agent_workloads := [("a1", 0)] }

/-- The terminal state after the final failure: the task is FAILED and no
queue entry remains. -/
def c2fail (m k : Nat) : OrchState :=
  { tasks := [c2task m k .failed (some "a1")], task_queue := [],
    active_tasks := [], agents := [c2agent], agent_workloads := [("a1", 0)] }

/-- The workload invariant that survives without StatusUpdate handling:
the active set is duplicate-free and every agent's workload counter
dominates the number of active tasks assigned to it. -/
def Inv3 (s : OrchState) : Prop :=
  s.active_tasks.Nodup ∧
  ∀ a : String, (countAssigned s a : Int) ≤ getW s.agent_workloads a

/-- Along a trace (most recent state first), every dependency of the task
has at some point named a COMPLETED task of the project. -/
def DepsEverDone (t : ProjectTask) (trace : List OrchState) : Prop :=
  ∀ d ∈ t.dependencies,
    ∃ s ∈ trace, ∃ u ∈ s.tasks, u.id = d ∧ u.status = ProjectStatus.completed

/-- The task currently sits in the priority queue or carries an agent
assignment (a TaskRequest was published on assignment). -/
def QueuedOrAssigned (s : OrchState) (t : ProjectTask) : Prop :=
  (∃ e ∈ s.task_queue, e.2 = t.id) ∨ t.assigned_agent ≠ none

/-- Every queued-or-assigned task has dependency completions somewhere in
the given history. -/
def PInv (hized : List OrchState) (st : OrchState) : Prop :=
  ∀ t ∈ st.tasks, QueuedOrAssigned st t → DepsEverDone t hized

/-- Every task in active_tasks carries an assignment. -/
def QInv (st : OrchState) : Prop :=
  ∀ t ∈ st.tasks, t.id ∈ st.active_tasks → t.assigned_agent ≠ none

/-- The project's task ids are pairwise distinct (uuid4 in the source). -/
def NInv (st : OrchState) : Prop :=
  (st.tasks.map (fun t => t.id)).Nodup

/-- The inductive invariant of orchestrator traces used for the dependency
ordering claim. -/
def TraceInv : List OrchState → Prop
  | [] => True
  | cur :: hist => PInv (cur :: hist) cur ∧ QInv cur ∧ NInv cur

/-- C1 scenario: t2 depends on t1; queue and schedule t1, complete it,
then schedule again so t2 is assigned only after t1 completed. -/
def c1s0 : OrchState := init_orchestrator
  [{ id := "t1", capabilities := ["c"] },
   { id := "t2", dependencies := ["t1"], capabilities := ["c"] }]
  [{ agent_id := "a1", capabilities := ["c"] }]

def c1s1 : OrchState := queue_ready_tasks c1s0

def c1s2 : OrchState := schedule_ready_tasks c1s1

def c1s3 : OrchState := handle_task_response c1s2 "t1" "completed" ""

def c1s4 : OrchState := schedule_ready_tasks c1s3

/-! ## Helper lemmas -/

lemma receivedBy_cons (c : String) (ms : List String)
    (rest : List (String × List String)) (a : String) :
    receivedBy ((c, ms) :: rest) a = if c = a then ms else receivedBy rest a := by
  by_cases h : c = a
  · simp [receivedBy, List.find?, h]
  · have hb : (c == a) = false := beq_eq_false_iff_ne.mpr h
    simp [receivedBy, List.find?, hb, h]

lemma logDeliver_cons (c : String) (ms : List String)
    (rest : List (String × List String)) (b m : String) :
    logDeliver ((c, ms) :: rest) b m =
      if c = b then (c, ms ++ [m]) :: rest else (c, ms) :: logDeliver rest b m := by
  by_cases h : c = b <;> simp [logDeliver, beq_iff_eq, h]

lemma receivedBy_logDeliver (b m a : String) :
    ∀ log, receivedBy (logDeliver log b m) a =
      if b = a then receivedBy log a ++ [m] else receivedBy log a := by
  intro log
  induction log with
  | nil =>
      by_cases h : b = a
      · simp [receivedBy, logDeliver, List.find?, h]
      · have hb : (b == a) = false := beq_eq_false_iff_ne.mpr h
        simp [receivedBy, logDeliver, List.find?, hb, h]
  | cons p rest ih =>
      obtain ⟨c, ms⟩ := p
      rw [logDeliver_cons]
      by_cases hcb : c = b
      · rw [if_pos hcb, receivedBy_cons, receivedBy_cons]
        by_cases hca : c = a
        · rw [if_pos hca, if_pos hca, if_pos (hcb.symm.trans hca)]
        · rw [if_neg hca, if_neg hca, if_neg (fun h => hca (hcb.trans h))]
      · rw [if_neg hcb, receivedBy_cons, receivedBy_cons, ih]
        by_cases hca : c = a
        · rw [if_pos hca, if_pos hca, if_neg (fun h => hcb (hca.trans h.symm))]
        · rw [if_neg hca, if_neg hca]

lemma receivedBy_safe_deliver_mono (sub : Subscriber) (mid : String)
    (log : List (String × List String)) (a x : String)
    (hx : x ∈ receivedBy log a) :
    x ∈ receivedBy (safe_deliver_to_subscriber sub mid log) a := by
  unfold safe_deliver_to_subscriber invokeSubscriber
  by_cases hr : sub.raises
  · simpa [hr] using hx
  · rw [if_neg hr]
    rw [receivedBy_logDeliver]
    by_cases h : sub.sid = a
    · rw [if_pos h]; exact List.mem_append_left _ hx
    · rw [if_neg h]; exact hx

lemma receivedBy_broadcast_mono (mid a x : String) :
    ∀ (subs : List Subscriber) (log : List (String × List String)),
      x ∈ receivedBy log a → x ∈ receivedBy (broadcast_message subs mid log) a := by
  intro subs
  induction subs with
  | nil => intro log hx; simpa [broadcast_message] using hx
  | cons sub rest ih =>
      intro log hx
      have h1 := receivedBy_safe_deliver_mono sub mid log a x hx
      simpa [broadcast_message] using ih _ h1

lemma publishAll_history_length :
    ∀ (ms : List BusMessage) (b : BusState),
      ((publishAll b ms).message_history).length = b.message_history.length + ms.length := by
  intro ms
  induction ms with
  | nil => intro b; simp [publishAll]
  | cons m rest ih =>
      intro b
      have h := ih (publish b m)
      simp only [publishAll] at h ⊢
      rw [List.foldl_cons, h]
      simp [publish]
      omega

lemma scoreFold_mem :
    ∀ (xs : List (Int × String)) (x : Int × String),
      xs.foldl (fun m y => if m.1 < y.1 || (m.1 == y.1 && m.2 < y.2) then y else m) x = x ∨
      xs.foldl (fun m y => if m.1 < y.1 || (m.1 == y.1 && m.2 < y.2) then y else m) x ∈ xs := by
  intro xs
  induction xs with
  | nil => intro x; left; rfl
  | cons y ys ih =>
      intro x
      rw [List.foldl_cons]
      rcases ih (if x.1 < y.1 || (x.1 == y.1 && x.2 < y.2) then y else x) with h | h
      · rw [h]
        by_cases hc : (x.1 < y.1 || (x.1 == y.1 && x.2 < y.2)) = true
        · right; rw [if_pos hc]; exact List.mem_cons_self _ _
        · left; rw [if_neg hc]
      · right; exact List.mem_cons_of_mem _ h

lemma scoreMax_mem (l : List (Int × String)) (m : Int × String)
    (h : scoreMax l = some m) : m ∈ l := by
  cases l with
  | nil => simp [scoreMax] at h
  | cons x xs =>
      simp only [scoreMax, Option.some.injEq] at h
      rcases scoreFold_mem xs x with h2 | h2
      · rw [← h, h2]; exact List.mem_cons_self _ _
      · rw [← h]; exact List.mem_cons_of_mem _ h2

lemma failingRestartRun_eq (cfg : MgrConfig) :
    ∀ n, failingRestartRun cfg n =
      { restart_attempts := min n cfg.max_restart_attempts,
        failed_reason :=
          if cfg.max_restart_attempts < n then some "Max restart attempts exceeded" else none,
        last_restart_time := none,
        total_restarts := 0,
        restarts_performed := min n cfg.max_restart_attempts } := by
  intro n
  induction n with
  | zero => simp [failingRestartRun]
  | succ k ih =>
      rw [failingRestartRun, ih]
      unfold attempt_agent_restart attempt_agent_restart.attemptCore
      by_cases h : cfg.max_restart_attempts ≤ k
      · have h1 : min k cfg.max_restart_attempts = cfg.max_restart_attempts := by omega
        have h2 : min (k + 1) cfg.max_restart_attempts = cfg.max_restart_attempts := by omega
        have h3 : cfg.max_restart_attempts < k + 1 := by omega
        simp only [h1, h2, ge_iff_le, le_refl, if_true, h3]
      · have h1 : min k cfg.max_restart_attempts = k := by omega
        have h2 : min (k + 1) cfg.max_restart_attempts = k + 1 := by omega
        have h3 : ¬ (k ≥ cfg.max_restart_attempts) := by omega
        have h4 : ¬ (cfg.max_restart_attempts < k) := by omega
        have h5 : ¬ (cfg.max_restart_attempts < k + 1) := by omega
        simp [h1, h2, h3, h4, h5]

/-! ## Claim theorems: event bus, agent, manager, heap -/

/-- C6: when a message is broadcast to all subscribers of its type, every
subscriber whose handler does not raise receives the message, no matter
which other subscribers raise: a raising handler is isolated by
_safe_deliver_to_subscriber and neither propagates into other handlers nor
terminates the delivery fan-out. -/
theorem c6_broadcast_isolation (subs : List Subscriber) (mid : String)
    (log : List (String × List String)) :
    ∀ s ∈ subs, s.raises = false →
      mid ∈ receivedBy (broadcast_message subs mid log) s.sid := by
  induction subs generalizing log with
  | nil => intro s hs; exact absurd hs (List.not_mem_nil s)
  | cons sub rest ih =>
      intro s hs hraise
      have hb : broadcast_message (sub :: rest) mid log =
          broadcast_message rest mid (safe_deliver_to_subscriber sub mid log) := rfl
      rw [hb]
      rcases List.mem_cons.mp hs with heq | hmem
      · subst heq
        apply receivedBy_broadcast_mono
        simp [safe_deliver_to_subscriber, invokeSubscriber, hraise,
          receivedBy_logDeliver]
      · exact ih _ s hmem hraise

/-- Witness for c6_broadcast_isolation: of three subscribers to a
StatusUpdate where the middle one raises, the two others still receive the
message. -/
theorem c6_broadcast_isolation_witness :
    "m1" ∈ receivedBy (broadcast_message [c6subA, c6subB, c6subC] "m1" []) "alpha" ∧
    "m1" ∈ receivedBy (broadcast_message [c6subA, c6subB, c6subC] "m1" []) "gamma" :=
  ⟨c6_broadcast_isolation [c6subA, c6subB, c6subC] "m1" [] c6subA (by decide) rfl,
   c6_broadcast_isolation [c6subA, c6subB, c6subC] "m1" [] c6subC (by decide) rfl⟩

/-- C7: an agent whose restart attempts all fail is restarted at most
max_restart_attempts times (the stop/start counter saturates at the cap);
past the cap it is recorded with the non-empty reason "Max restart
attempts exceeded" and never restarted again, while a successful restart
resets the attempt counter to zero. -/
theorem c7_restart_cap (cfg : MgrConfig) (n : Nat) :
    (failingRestartRun cfg n).restarts_performed = min n cfg.max_restart_attempts ∧
    (failingRestartRun cfg n).restarts_performed ≤ cfg.max_restart_attempts ∧
    (cfg.max_restart_attempts < n →
      (failingRestartRun cfg n).failed_reason = some "Max restart attempts exceeded" ∧
      "Max restart attempts exceeded" ≠ "") ∧
    (∀ (now : Nat) (st : MgrState), st.last_restart_time = none →
      st.restart_attempts < cfg.max_restart_attempts →
      (attempt_agent_restart cfg now true st).restart_attempts = 0) := by
  refine ⟨?_, ?_, ?_, ?_⟩
  · rw [failingRestartRun_eq]
  · rw [failingRestartRun_eq]
    simp only []
    omega
  · intro h
    rw [failingRestartRun_eq]
    exact ⟨by simp [h], by decide⟩
  · intro now st h1 h2
    unfold attempt_agent_restart attempt_agent_restart.attemptCore
    rw [h1]
    have h3 : ¬ (st.restart_attempts ≥ cfg.max_restart_attempts) := by omega
    simp [h3]

/-- Witness for c7_restart_cap at the source defaults
(max_restart_attempts = 3) and 5 failing health-check rounds. -/
theorem c7_restart_cap_witness :
    (failingRestartRun {} 5).restarts_performed = 3 ∧
    (failingRestartRun {} 5).failed_reason = some "Max restart attempts exceeded" ∧
    (attempt_agent_restart {} 7 true { restart_attempts := 2 }).restart_attempts = 0 := by
  refine ⟨?_, ?_, ?_⟩
  · have h := (c7_restart_cap {} 5).1
    rw [h]
    decide
  · exact ((c7_restart_cap {} 5).2.2.1 (by decide)).1
  · exact (c7_restart_cap {} 5).2.2.2 7 { restart_attempts := 2 } rfl (by decide)

/-- C8 counterexample: the retained message history is not bounded by any
fixed N — publishing N + 1 messages onto a fresh bus leaves N + 1 messages
retained. -/
theorem c8_history_unbounded_counterexample :
    ¬ ∃ N : Nat, ∀ ms : List BusMessage,
        ((publishAll emptyBus ms).message_history).length ≤ N := by
  rintro ⟨N, h⟩
  have h2 := h (List.replicate (N + 1) { id := "m" })
  rw [publishAll_history_length] at h2
  simp [emptyBus] at h2

/-- C8 amended: publish retains every message, so the stored history after
n publishes holds exactly n messages (unbounded); only the
get_message_history view is bounded, returning at most limit messages for
any positive limit. -/
theorem c8_bounded_view_amended :
    (∀ ms : List BusMessage,
      ((publishAll emptyBus ms).message_history).length = ms.length) ∧
    (∀ (limit : Nat) (hist : List BusMessage), 0 < limit →
      (get_message_history limit hist).length ≤ limit) := by
  constructor
  · intro ms
    rw [publishAll_history_length]
    simp [emptyBus]
  · intro limit hist hl
    unfold get_message_history
    have h0 : (limit == 0) = false := by
      rw [beq_eq_false_iff_ne]
      omega
    rw [h0]
    simp only [Bool.false_eq_true, if_false, List.length_drop]
    omega

/-- Witness for c8_bounded_view_amended on a two-message history. -/
theorem c8_bounded_view_witness :
    ((publishAll emptyBus [{ id := "m1" }, { id := "m2" }]).message_history).length = 2 ∧
    (get_message_history 1 [{ id := "m1" }, { id := "m2" }]).length ≤ 1 :=
  ⟨c8_bounded_view_amended.1 [{ id := "m1" }, { id := "m2" }],
   c8_bounded_view_amended.2 1 [{ id := "m1" }, { id := "m2" }] (by decide)⟩

/-- C9 counterexample: after an agent finishes processing a task its
status is COMPLETED, not IDLE, and with another request already queued the
next iteration starts with the status still COMPLETED — the state machine
never returns to Idle between tasks. -/
theorem c9_no_return_to_idle_counterexample :
    c9a1.status = AgentStatus.completed ∧
    c9a1.status ≠ AgentStatus.idle ∧
    c9a1.task_queue ≠ [] ∧
    (main_loop_iter true c9a1).2 = [AgentStatus.working, AgentStatus.completed] := by
  decide

/-- C9 amended: a main-loop iteration with a queued request drives the
status Working and then to Completed on success or Failed on exception,
and leaves it there — the post-processing status is never Idle (the
orchestrator compensates by treating COMPLETED agents as available). -/
theorem c9_status_after_processing_amended (st : AgentSt) (execOk : Bool)
    (h : st.task_queue ≠ []) :
    (main_loop_iter execOk st).1.status =
      (if execOk then AgentStatus.completed else AgentStatus.failed) ∧
    (main_loop_iter execOk st).2 =
      [AgentStatus.working, if execOk then AgentStatus.completed else AgentStatus.failed] ∧
    (main_loop_iter execOk st).1.status ≠ AgentStatus.idle := by
  cases hq : st.task_queue with
  | nil => exact absurd hq h
  | cons r rest =>
      cases execOk <;> simp [main_loop_iter, process_task, hq]

/-- Witness for c9_status_after_processing_amended. -/
theorem c9_status_witness :
    ((main_loop_iter true c9a0).1.status =
      (if true then AgentStatus.completed else AgentStatus.failed) ∧
    (main_loop_iter true c9a0).2 =
      [AgentStatus.working, if true then AgentStatus.completed else AgentStatus.failed] ∧
    (main_loop_iter true c9a0).1.status ≠ AgentStatus.idle) :=
  c9_status_after_processing_amended c9a0 true (by decide)

/-- C10: two distinct ready tasks that share a priority make the put of
_queue_ready_tasks raise TypeError, because the heap comparison of the
(priority, task) tuples falls through to ProjectTask, which defines no
ordering: scheduling is not total on such projects. -/
theorem c10_equal_priority_typeerror :
    c10tA ≠ c10tB ∧
    c10tA.priority = c10tB.priority ∧
    c10tA.status = ProjectStatus.pending ∧
    c10tB.status = ProjectStatus.pending ∧
    are_dependencies_met c10tA [c10tA, c10tB] = true ∧
    are_dependencies_met c10tB [c10tA, c10tB] = true ∧
    queue_ready_tasks_heap [c10tA, c10tB] =
      Except.error "TypeError: ProjectTask is not orderable" := by
  refine ⟨by decide, rfl, rfl, rfl, rfl, rfl, rfl⟩

/-- C4 counterexample: a single scheduling pass over two ready tasks and
one idle agent assigns both tasks to that agent (assigning does not change
the agent's status, so it stays eligible), leaving two tasks with status
IN_PROGRESS and assigned_agent a1 at once. -/
theorem c4_double_assignment_counterexample :
    RTrace [c4s2, c4s1, c4s0] ∧
    (c4s2.tasks.filter (fun t =>
      t.status == ProjectStatus.in_progress && t.assigned_agent == some "a1")).length = 2 := by
  constructor
  · exact RTrace.step c4s1 c4s2 [c4s0]
      (RTrace.step c4s0 c4s1 [] (RTrace.init c4s0 (by decide)) (OrchStep.queue_ready c4s0))
      (OrchStep.schedule c4s1)
  · decide

/-- C4 amended: what the scheduler does guarantee is the availability
guard — a task is only ever handed to an agent that has the required
capabilities and whose (self-reported) status is IDLE or COMPLETED at
selection time; the count of InProgress tasks per agent is not bounded
by 1. -/
theorem c4_assignment_guard_amended (t : ProjectTask) (s : OrchState) (a : String)
    (h : find_best_agent t s = some a) :
    ∃ ag ∈ s.agents, ag.agent_id = a ∧
      (ag.status = AgentStatus.idle ∨ ag.status = AgentStatus.completed) ∧
      capSubset t.required_capabilities ag.capabilities = true := by
  simp only [find_best_agent] at h
  rcases Option.map_eq_some'.mp h with ⟨p, hp, hpa⟩
  have hmem := scoreMax_mem _ _ hp
  rcases List.mem_filterMap.mp hmem with ⟨ag, hag, hf⟩
  by_cases h1 : capSubset t.required_capabilities ag.capabilities = true
  · rw [if_pos h1] at hf
    by_cases h2 : (ag.status == AgentStatus.idle || ag.status == AgentStatus.completed) = true
    · rw [if_pos h2] at hf
      have hpe : p.2 = ag.agent_id := by
        rw [← Option.some.injEq] at hf
        simp at hf
        rw [← hf]
      refine ⟨ag, hag, by rw [← hpa, hpe], ?_, h1⟩
      simp only [Bool.or_eq_true, beq_iff_eq] at h2
      exact h2
    · rw [if_neg h2] at hf
      exact absurd hf (by simp)
  · rw [if_neg h1] at hf
    exact absurd hf (by simp)

/-- Witness for c4_assignment_guard_amended on the concrete scenario. -/
theorem c4_assignment_guard_witness :
    ∃ ag ∈ c4s0.agents, ag.agent_id = "a1" ∧
      (ag.status = AgentStatus.idle ∨ ag.status = AgentStatus.completed) ∧
      capSubset ["c"] ag.capabilities = true :=
  c4_assignment_guard_amended { id := "tw", required_capabilities := ["c"] } c4s0 "a1"
    (by decide)

/-- C5 counterexample: the agent does reject the unsupported request
without queueing it, but the orchestrator has no branch for a rejected
TaskResponse, so the task stays IN_PROGRESS (it was marked so when
queued) with its agent assignment — it does not remain or return to
Pending. -/
theorem c5_rejected_not_pending_counterexample :
    RTrace [c5s3, c5s2, c5s1, c5s0] ∧
    agent_handle_task_request c5agentCaps [] c5request = ([], "rejected") ∧
    (∀ t ∈ c5s3.tasks, t.id = "t1" →
      t.status = ProjectStatus.in_progress ∧
      t.status ≠ ProjectStatus.pending ∧
      t.assigned_agent = some "a1") := by
  refine ⟨?_, by decide, by decide⟩
  exact RTrace.step c5s2 c5s3 [c5s1, c5s0]
    (RTrace.step c5s1 c5s2 [c5s0]
      (RTrace.step c5s0 c5s1 [] (RTrace.init c5s0 (by decide)) (OrchStep.queue_ready c5s0))
      (OrchStep.schedule c5s1))
    (OrchStep.response c5s2 "t1" "rejected" "Task not supported")

/-- C5 amended: an agent whose capability names do not include the task
type immediately answers with status "rejected" and does not enqueue
the task; the orchestrator ignores rejected responses entirely, so its
state — in particular the task's IN_PROGRESS status and its assignment —
is left unchanged rather than reset to Pending. -/
theorem c5_capability_gating_amended (caps : List AgentCapability)
    (q : List TaskRequestMsg) (m : TaskRequestMsg)
    (h : can_handle_task caps m = false) :
    agent_handle_task_request caps q m = (q, "rejected") ∧
    (∀ (s : OrchState) (tid err : String), handle_task_response s tid "rejected" err = s) := by
  constructor
  · unfold agent_handle_task_request
    rw [h]
    simp
  · intro s tid err
    unfold handle_task_response
    by_cases hc : s.active_tasks.contains tid = true
    · rw [if_pos hc]
      rfl
    · rw [if_neg hc]

/-- Witness for c5_capability_gating_amended at the spec's example: an
agent with capability joist_calculation receiving a load_calculation
request. -/
theorem c5_capability_gating_witness :
    (agent_handle_task_request c5agentCaps [] c5request = ([], "rejected") ∧
    (∀ (s : OrchState) (tid err : String), handle_task_response s tid "rejected" err = s)) :=
  c5_capability_gating_amended c5agentCaps [] c5request (by decide)

/-- C3 counterexample: assign a task (workload 1), process a StatusUpdate
reporting queue_size 0 (workload overwritten to 0), then complete the task
(workload decremented to -1): the counter both diverges from the number of
assigned tasks and goes negative. -/
theorem c3_negative_workload_counterexample :
    RTrace [c3s4, c3s3, c3s2, c3s1, c3s0] ∧
    getW c3s4.agent_workloads "a1" = -1 ∧
    countAssigned c3s4 "a1" = 0 ∧
    getW c3s4.agent_workloads "a1" < 0 := by
  refine ⟨?_, by decide, by decide, by decide⟩
  exact RTrace.step c3s3 c3s4 [c3s2, c3s1, c3s0]
    (RTrace.step c3s2 c3s3 [c3s1, c3s0]
      (RTrace.step c3s1 c3s2 [c3s0]
        (RTrace.step c3s0 c3s1 [] (RTrace.init c3s0 (by decide)) (OrchStep.queue_ready c3s0))
        (OrchStep.schedule c3s1))
      (OrchStep.status_update c3s2 "a1" 0))
    (OrchStep.response c3s3 "t1" "completed" "")

/-! ## Bounded retry (claim on _handle_task_failure) -/

lemma c2_cycle_init (m : Nat) :
    failCycle (c2init m) = if 1 < m then c2pend m 1 else c2fail m 1 := by
  by_cases h : 1 < m
  · rw [if_pos h]
    simp [failCycle, c2init, c2s00, init_orchestrator, c2spec, c2agent, mkTask,
      queue_ready_tasks, queueReadyAux, queuePut, are_dependencies_met, updateTask,
      schedule_ready_tasks, scheduleAux, popMin, minEntry, removeFirst,
      find_best_agent, capSubset, capSetEq, scoreMax, getW, setW,
      assign_task_to_agent, handle_task_response, handle_task_completion,
      handle_task_failure, c2pend, c2task, TaskPriority.value, h]
  · rw [if_neg h]
    simp [failCycle, c2init, c2s00, init_orchestrator, c2spec, c2agent, mkTask,
      queue_ready_tasks, queueReadyAux, queuePut, are_dependencies_met, updateTask,
      schedule_ready_tasks, scheduleAux, popMin, minEntry, removeFirst,
      find_best_agent, capSubset, capSetEq, scoreMax, getW, setW,
      assign_task_to_agent, handle_task_response, handle_task_completion,
      handle_task_failure, c2fail, c2task, TaskPriority.value, h]

lemma c2_cycle_pend (m k : Nat) :
    failCycle (c2pend m k) = if k + 2 ≤ m then c2pend m (k + 1) else c2fail m (k + 1) := by
  by_cases h : k + 2 ≤ m
  · rw [if_pos h]
    have h2 : k + 1 < m := by omega
    simp [failCycle, c2pend, c2fail, c2task, c2agent,
      schedule_ready_tasks, scheduleAux, popMin, minEntry, removeFirst,
      find_best_agent, capSubset, capSetEq, scoreMax, getW, setW,
      assign_task_to_agent, updateTask, handle_task_response,
      handle_task_completion, handle_task_failure,
      queue_ready_tasks, queueReadyAux, queuePut, are_dependencies_met,
      TaskPriority.value, h2]
  · rw [if_neg h]
    have h2 : ¬ (k + 1 < m) := by omega
    simp [failCycle, c2pend, c2fail, c2task, c2agent,
      schedule_ready_tasks, scheduleAux, popMin, minEntry, removeFirst,
      find_best_agent, capSubset, capSetEq, scoreMax, getW, setW,
      assign_task_to_agent, updateTask, handle_task_response,
      handle_task_completion, handle_task_failure,
      queue_ready_tasks, queueReadyAux, queuePut, are_dependencies_met,
      TaskPriority.value, h2]

lemma c2_cycle_fixpoint (m k : Nat) : failCycle (c2fail m k) = c2fail m k := rfl

lemma failRun_eq (m : Nat) (hm : 1 ≤ m) :
    ∀ k, failRun m k =
      if k = 0 then c2init m else if k < m then c2pend m k else c2fail m m := by
  intro k
  induction k with
  | zero => simp [failRun]
  | succ j ih =>
      rw [failRun, ih]
      by_cases h0 : j = 0
      · subst h0
        rw [if_pos rfl, c2_cycle_init]
        by_cases h1 : 1 < m
        · rw [if_pos h1]
          simp [h1]
        · rw [if_neg h1]
          have hm1 : m = 1 := by omega
          subst hm1
          simp
      · by_cases h1 : j < m
        · rw [if_neg h0, if_pos h1, c2_cycle_pend]
          by_cases h2 : j + 2 ≤ m
          · rw [if_pos h2]
            have h3 : j + 1 < m := by omega
            have h4 : ¬ (j + 1 = 0) := by omega
            simp [h3, h4]
          · rw [if_neg h2]
            have hjm : j + 1 = m := by omega
            have h4 : ¬ (j + 1 = 0) := by omega
            have h5 : ¬ (j + 1 < m) := by omega
            have h6 : ¬ (m = 0) := by omega
            simp [h4, h5, hjm, h6]
        · rw [if_neg h0, if_neg h1, c2_cycle_fixpoint]
          have h4 : ¬ (j + 1 = 0) := by omega
          have h5 : ¬ (j + 1 < m) := by omega
          simp [h4, h5]

/-- C2 counterexample: with max_retries = 0 the task is still assigned
once (a TaskRequest is published) and reaches Failed only after that one
failed attempt, with retry_count = 1 — one attempt more than the claimed
"exactly max_retries" allows. -/
theorem c2_zero_retries_counterexample :
    RTrace [failRun 0 1, schedule_ready_tasks (c2init 0), c2init 0, c2s00 0] ∧
    (∀ t ∈ (schedule_ready_tasks (c2init 0)).tasks, t.assigned_agent = some "a1") ∧
    (∀ t ∈ (failRun 0 1).tasks,
      t.max_retries = 0 ∧ t.status = ProjectStatus.failed ∧ t.retry_count = 1) := by
  refine ⟨?_, by decide, by decide⟩
  exact RTrace.step (schedule_ready_tasks (c2init 0)) (failRun 0 1) [c2init 0, c2s00 0]
    (RTrace.step (c2init 0) (schedule_ready_tasks (c2init 0)) [c2s00 0]
      (RTrace.step (c2s00 0) (c2init 0) []
        (RTrace.init (c2s00 0) (by decide)) (OrchStep.queue_ready (c2s00 0)))
      (OrchStep.schedule (c2init 0)))
    (OrchStep.response (schedule_ready_tasks (c2init 0)) "t1" "failed" "boom")

/-- C2 amended: for max_retries ≥ 1 the always-failing task behaves as
claimed — each handled failure increments retry_count; after every failure
before the max_retries-th the task is PENDING, unassigned and re-queued at
decayed priority and is not Failed; at the max_retries-th failure it
becomes permanently Failed with retry_count = max_retries, which never
increments again. -/
theorem c2_bounded_retry_amended (m k : Nat) (hm : 1 ≤ m) :
    (k < m → ∀ t ∈ (failRun m k).tasks,
      t.status ≠ ProjectStatus.failed ∧ t.retry_count = k) ∧
    (1 ≤ k → k < m → (failRun m k).task_queue = [(-1, "t1")] ∧
      ∀ t ∈ (failRun m k).tasks,
        t.status = ProjectStatus.pending ∧ t.assigned_agent = none) ∧
    (m ≤ k → ∀ t ∈ (failRun m k).tasks,
      t.status = ProjectStatus.failed ∧ t.retry_count = m) := by
  rw [failRun_eq m hm k]
  refine ⟨?_, ?_, ?_⟩
  · intro hkm
    by_cases hk0 : k = 0
    · subst hk0
      simp [c2init, c2s00, init_orchestrator, c2spec, c2agent, mkTask,
        queue_ready_tasks, queueReadyAux, queuePut, are_dependencies_met,
        updateTask, TaskPriority.value]
    · rw [if_neg hk0, if_pos hkm]
      simp [c2pend, c2task]
  · intro hk1 hkm
    have hk0 : ¬ (k = 0) := by omega
    rw [if_neg hk0, if_pos hkm]
    simp [c2pend, c2task]
  · intro hmk
    have hk0 : ¬ (k = 0) := by omega
    have hkm : ¬ (k < m) := by omega
    rw [if_neg hk0, if_neg hkm]
    simp [c2fail, c2task]

/-- Witness for c2_bounded_retry_amended at the default max_retries = 3:
after 2 failures the task is pending and unassigned, after 3 it is failed
with retry_count 3, and after 5 rounds nothing has changed. -/
theorem c2_bounded_retry_witness :
    (∀ t ∈ (failRun 3 2).tasks,
      t.status = ProjectStatus.pending ∧ t.assigned_agent = none) ∧
    (∀ t ∈ (failRun 3 3).tasks,
      t.status = ProjectStatus.failed ∧ t.retry_count = 3) ∧
    (∀ t ∈ (failRun 3 5).tasks,
      t.status = ProjectStatus.failed ∧ t.retry_count = 3) :=
  ⟨((c2_bounded_retry_amended 3 2 (by decide)).2.1 (by decide) (by decide)).2,
   (c2_bounded_retry_amended 3 3 (by decide)).2.2 (by decide),
   (c2_bounded_retry_amended 3 5 (by decide)).2.2 (by decide)⟩

/-! ## Association list and task-lookup lemmas -/

lemma getW_cons (c : String) (w : Int) (rest : List (String × Int)) (b : String) :
    getW ((c, w) :: rest) b = if c = b then w else getW rest b := by
  by_cases h : c = b
  · simp [getW, List.find?, beq_iff_eq, h]
  · have hb : (c == b) = false := beq_eq_false_iff_ne.mpr h
    simp [getW, List.find?, hb, h]

lemma setW_cons (c : String) (w : Int) (rest : List (String × Int)) (a : String) (v : Int) :
    setW ((c, w) :: rest) a v =
      if c = a then (c, v) :: rest else (c, w) :: setW rest a v := by
  by_cases h : c = a
  · simp [setW, beq_iff_eq, h]
  · have hb : (c == a) = false := beq_eq_false_iff_ne.mpr h
    simp [setW, hb, h]

lemma getW_setW (ws : List (String × Int)) (a : String) (v : Int) (b : String) :
    getW (setW ws a v) b = if a = b then v else getW ws b := by
  induction ws with
  | nil =>
      by_cases h : a = b
      · simp [setW, getW, List.find?, beq_iff_eq, h]
      · have hb : (a == b) = false := beq_eq_false_iff_ne.mpr h
        simp [setW, getW, List.find?, hb, h]
  | cons p rest ih =>
      obtain ⟨c, w⟩ := p
      rw [setW_cons]
      by_cases hca : c = a
      · subst hca
        by_cases hcb : c = b <;> simp [getW_cons, hcb]
      · rw [if_neg hca]
        by_cases hcb : c = b
        · have hab : ¬ a = b := fun h => hca (by rw [h, hcb])
          simp [getW_cons, hcb, hab, ih]
        · by_cases hab : a = b
          · subst hab
            simp [getW_cons, hcb, ih]
          · simp [getW_cons, hcb, hab, ih]

lemma find?_updateTask (ts : List ProjectTask) (k : String)
    (g : ProjectTask → ProjectTask) (hid : ∀ t, (g t).id = t.id) (tid : String) :
    (updateTask ts k g).find? (fun t => t.id == tid) =
      (ts.find? (fun t => t.id == tid)).map (fun t => if t.id == k then g t else t) := by
  induction ts with
  | nil => rfl
  | cons t rest ih =>
      have hgid : (if t.id == k then g t else t).id = t.id := by
        by_cases hk : (t.id == k) = true <;> simp [hk, hid]
      show List.find? (fun u => u.id == tid)
          ((if t.id == k then g t else t) :: updateTask rest k g) = _
      by_cases h : (t.id == tid) = true
      · have hgid2 : ((if t.id == k then g t else t).id == tid) = true := by
          rw [hgid]; exact h
        rw [@List.find?_cons_of_pos _ (fun u => u.id == tid) _ (updateTask rest k g) hgid2,
            @List.find?_cons_of_pos _ (fun u => u.id == tid) t rest h]
        rfl
      · have hgid2 : ¬ (((if t.id == k then g t else t).id == tid) = true) := by
          rw [hgid]; exact h
        rw [@List.find?_cons_of_neg _ (fun u => u.id == tid) _ (updateTask rest k g) hgid2,
            @List.find?_cons_of_neg _ (fun u => u.id == tid) t rest h]
        exact ih

lemma assignLk_updateTask_keep (ts : List ProjectTask) (k : String)
    (g : ProjectTask → ProjectTask) (tid a : String)
    (hid : ∀ t, (g t).id = t.id)
    (has : ∀ t, (g t).assigned_agent = t.assigned_agent) :
    assignLk (updateTask ts k g) tid a = assignLk ts tid a := by
  unfold assignLk
  rw [find?_updateTask ts k g hid tid]
  cases hf : ts.find? (fun t => t.id == tid) with
  | none => rfl
  | some t =>
      by_cases hk : t.id = k <;> simp [hk, has]

lemma assignLk_updateTask_other (ts : List ProjectTask) (k : String)
    (g : ProjectTask → ProjectTask) (tid a : String)
    (hid : ∀ t, (g t).id = t.id) (hne : tid ≠ k) :
    assignLk (updateTask ts k g) tid a = assignLk ts tid a := by
  unfold assignLk
  rw [find?_updateTask ts k g hid tid]
  cases hf : ts.find? (fun t => t.id == tid) with
  | none => rfl
  | some t =>
      have ht : t.id = tid := by
        have hp := List.find?_some hf
        exact beq_iff_eq.mp hp
      have hk : ¬ t.id = k := ht ▸ hne
      simp [hk]

lemma assignLk_updateTask_assign_ne (ts : List ProjectTask) (k b a : String)
    (hba : b ≠ a) :
    assignLk (updateTask ts k (fun t => { t with assigned_agent := some b })) k a = false := by
  unfold assignLk
  rw [find?_updateTask ts k (fun t => { t with assigned_agent := some b }) (fun t => rfl) k]
  cases hf : ts.find? (fun t => t.id == k) with
  | none => rfl
  | some t =>
      have ht : t.id = k := by
        have hp := List.find?_some hf
        exact beq_iff_eq.mp hp
      simp [ht, hba]

/-! ## Filter-length counting lemmas -/

lemma filterLen_le_succ_of_agree (p q : String → Bool) (tid : String) :
    ∀ l : List String, l.Nodup → (∀ x ∈ l, x ≠ tid → q x = p x) →
      (l.filter q).length ≤ (l.filter p).length + 1 := by
  intro l
  induction l with
  | nil => intro _ _; simp
  | cons x xs ih =>
      intro hnd hag
      obtain ⟨hx, hxs⟩ := List.nodup_cons.mp hnd
      by_cases hxt : x = tid
      · subst hxt
        have hq : xs.filter q = xs.filter p :=
          List.filter_congr (fun y hy => hag y (List.mem_cons_of_mem _ hy)
            (fun h => hx (h ▸ hy)))
        by_cases hqx : q x = true <;> by_cases hpx : p x = true <;>
          (simp [List.filter_cons, hqx, hpx, hq]; try omega)
      · have hqx : q x = p x := hag x (List.mem_cons_self x xs) hxt
        have ihh := ih hxs (fun y hy hne => hag y (List.mem_cons_of_mem _ hy) hne)
        by_cases hpx : p x = true <;> simp [List.filter_cons, hqx, hpx] <;> omega

lemma filterLen_le_of_agree_false (p q : String → Bool) (tid : String)
    (hqt : q tid = false) :
    ∀ l : List String, (∀ x ∈ l, x ≠ tid → q x = p x) →
      (l.filter q).length ≤ (l.filter p).length := by
  intro l
  induction l with
  | nil => intro _; simp
  | cons x xs ih =>
      intro hag
      have ihh := ih (fun y hy hne => hag y (List.mem_cons_of_mem _ hy) hne)
      by_cases hxt : x = tid
      · subst hxt
        simp only [List.filter_cons, hqt]
        by_cases hpx : p x = true <;> simp [hpx] <;> omega
      · have hqx : q x = p x := hag x (List.mem_cons_self x xs) hxt
        by_cases hpx : p x = true <;> simp [List.filter_cons, hqx, hpx] <;> omega

lemma filterLen_combined_le (p : String → Bool) (tid : String) (l : List String) :
    (l.filter (fun a => p a && (a != tid))).length ≤ (l.filter p).length := by
  have h := ((@List.filter_sublist _ (fun x => x != tid) l).filter p).length_le
  rw [List.filter_filter] at h
  exact h

lemma filterLen_combined_lt (p : String → Bool) (tid : String) :
    ∀ l : List String, tid ∈ l → p tid = true →
      (l.filter (fun a => p a && (a != tid))).length + 1 ≤ (l.filter p).length := by
  intro l
  induction l with
  | nil => intro h; exact absurd h (List.not_mem_nil tid)
  | cons x xs ih =>
      intro hmem hp
      by_cases hxt : x = tid
      · subst hxt
        have hhead : (p x && (x != x)) = false := by simp
        rw [List.filter_cons, List.filter_cons, hhead, if_neg (by simp), if_pos hp]
        have := filterLen_combined_le p x xs
        simp only [List.length_cons]
        omega
      · have hmem2 : tid ∈ xs := by
          rcases List.mem_cons.mp hmem with h | h
          · exact absurd h.symm hxt
          · exact h
        have ihh := ih hmem2 hp
        have hxb : (x != tid) = true := bne_iff_ne.mpr hxt
        by_cases hpx : p x = true <;>
          simp [List.filter_cons, hxb, hpx, Bool.and_eq_true] <;> omega

/-! ## Inv3 preservation: queue_ready and assignment -/

lemma queueReadyAux_active : ∀ (l : List String) (s : OrchState),
    (queueReadyAux l s).active_tasks = s.active_tasks := by
  intro l
  induction l with
  | nil => intro s; rfl
  | cons tid rest ih =>
      intro s
      rw [queueReadyAux]
      cases hf : s.tasks.find? (fun t => t.id == tid) with
      | none => exact ih s
      | some t =>
          dsimp only
          by_cases hc : (t.status == ProjectStatus.pending && are_dependencies_met t s.tasks) = true
          · rw [if_pos hc]; exact ih _
          · rw [if_neg hc]; exact ih s

lemma queueReadyAux_workloads : ∀ (l : List String) (s : OrchState),
    (queueReadyAux l s).agent_workloads = s.agent_workloads := by
  intro l
  induction l with
  | nil => intro s; rfl
  | cons tid rest ih =>
      intro s
      rw [queueReadyAux]
      cases hf : s.tasks.find? (fun t => t.id == tid) with
      | none => exact ih s
      | some t =>
          dsimp only
          by_cases hc : (t.status == ProjectStatus.pending && are_dependencies_met t s.tasks) = true
          · rw [if_pos hc]; exact ih _
          · rw [if_neg hc]; exact ih s

lemma queueReadyAux_agents : ∀ (l : List String) (s : OrchState),
    (queueReadyAux l s).agents = s.agents := by
  intro l
  induction l with
  | nil => intro s; rfl
  | cons tid rest ih =>
      intro s
      rw [queueReadyAux]
      cases hf : s.tasks.find? (fun t => t.id == tid) with
      | none => exact ih s
      | some t =>
          dsimp only
          by_cases hc : (t.status == ProjectStatus.pending && are_dependencies_met t s.tasks) = true
          · rw [if_pos hc]; exact ih _
          · rw [if_neg hc]; exact ih s

lemma queueReadyAux_assignLk : ∀ (l : List String) (s : OrchState) (tid a : String),
    assignLk (queueReadyAux l s).tasks tid a = assignLk s.tasks tid a := by
  intro l
  induction l with
  | nil => intro s tid a; rfl
  | cons x rest ih =>
      intro s tid a
      rw [queueReadyAux]
      cases hf : s.tasks.find? (fun t => t.id == x) with
      | none => exact ih s tid a
      | some t =>
          dsimp only
          by_cases hc : (t.status == ProjectStatus.pending && are_dependencies_met t s.tasks) = true
          · rw [if_pos hc]
            rw [ih _ tid a]
            exact assignLk_updateTask_keep s.tasks t.id _ tid a (fun u => rfl) (fun u => rfl)
          · rw [if_neg hc]; exact ih s tid a

lemma countAssigned_queue_ready (s : OrchState) (a : String) :
    countAssigned (queue_ready_tasks s) a = countAssigned s a := by
  unfold countAssigned queue_ready_tasks
  rw [queueReadyAux_active]
  rw [List.filter_congr (fun x _ => queueReadyAux_assignLk (s.tasks.map (fun t => t.id)) s x a)]

lemma inv3_queue_ready (s : OrchState) (h : Inv3 s) : Inv3 (queue_ready_tasks s) := by
  obtain ⟨hnd, hc⟩ := h
  constructor
  · rw [queue_ready_tasks, queueReadyAux_active]; exact hnd
  · intro a
    rw [countAssigned_queue_ready, queue_ready_tasks, queueReadyAux_workloads]
    exact hc a

lemma inv3_assign (s : OrchState) (tid b : String) (h : Inv3 s) :
    Inv3 (assign_task_to_agent s tid b) := by
  obtain ⟨hnd, hc⟩ := h
  have hact : (assign_task_to_agent s tid b).active_tasks =
      if s.active_tasks.contains tid then s.active_tasks else s.active_tasks ++ [tid] := rfl
  have htasks : (assign_task_to_agent s tid b).tasks =
      updateTask s.tasks tid (fun t => { t with assigned_agent := some b }) := rfl
  have hwl : (assign_task_to_agent s tid b).agent_workloads =
      setW s.agent_workloads b (getW s.agent_workloads b + 1) := rfl
  have hagree : ∀ x, x ≠ tid →
      assignLk (updateTask s.tasks tid (fun t => { t with assigned_agent := some b })) x b =
        assignLk s.tasks x b :=
    fun x hx => assignLk_updateTask_other s.tasks tid _ x b (fun t => rfl) hx
  have hagreeA : ∀ (a : String) (x : String), x ≠ tid →
      assignLk (updateTask s.tasks tid (fun t => { t with assigned_agent := some b })) x a =
        assignLk s.tasks x a :=
    fun a x hx => assignLk_updateTask_other s.tasks tid _ x a (fun t => rfl) hx
  constructor
  · rw [hact]
    by_cases hct : s.active_tasks.contains tid = true
    · rw [if_pos hct]; exact hnd
    · rw [if_neg hct]
      have hn : tid ∉ s.active_tasks := fun hm => hct (List.elem_iff.mpr hm)
      rw [List.nodup_append]
      exact ⟨hnd, List.nodup_singleton tid,
        fun x hx hx2 => hn ((List.mem_singleton.mp hx2) ▸ hx)⟩
  · intro a
    by_cases hba : b = a
    · subst hba
      have hg : getW (assign_task_to_agent s tid b).agent_workloads b =
          getW s.agent_workloads b + 1 := by
        rw [hwl, getW_setW, if_pos rfl]
      have hcount : countAssigned (assign_task_to_agent s tid b) b ≤ countAssigned s b + 1 := by
        unfold countAssigned
        rw [hact, htasks]
        by_cases hct : s.active_tasks.contains tid = true
        · rw [if_pos hct]
          exact filterLen_le_succ_of_agree _ _ tid s.active_tasks hnd
            (fun x _ hx => hagree x hx)
        · rw [if_neg hct, List.filter_append]
          have hn : tid ∉ s.active_tasks := fun hm => hct (List.elem_iff.mpr hm)
          rw [List.filter_congr (fun x hx => hagree x (fun he => hn (he ▸ hx)))]
          rw [List.length_append]
          have hsing : (List.filter
              (fun x => assignLk (updateTask s.tasks tid
                (fun t => { t with assigned_agent := some b })) x b) [tid]).length ≤ 1 := by
            by_cases hq : assignLk (updateTask s.tasks tid
                (fun t => { t with assigned_agent := some b })) tid b = true <;>
              simp [List.filter_cons, hq]
          omega
      have h2 := hc b
      rw [hg]
      omega
    · have hqt : assignLk (updateTask s.tasks tid
          (fun t => { t with assigned_agent := some b })) tid a = false :=
        assignLk_updateTask_assign_ne s.tasks tid b a hba
      have hg : getW (assign_task_to_agent s tid b).agent_workloads a =
          getW s.agent_workloads a := by
        rw [hwl, getW_setW, if_neg hba]
      have hcount : countAssigned (assign_task_to_agent s tid b) a ≤ countAssigned s a := by
        unfold countAssigned
        rw [hact, htasks]
        by_cases hct : s.active_tasks.contains tid = true
        · rw [if_pos hct]
          exact filterLen_le_of_agree_false _ _ tid hqt s.active_tasks
            (fun x _ hx => hagreeA a x hx)
        · rw [if_neg hct, List.filter_append]
          have hn : tid ∉ s.active_tasks := fun hm => hct (List.elem_iff.mpr hm)
          rw [List.filter_congr (fun x hx => hagreeA a x (fun he => hn (he ▸ hx)))]
          rw [List.length_append]
          have hsing : (List.filter
              (fun x => assignLk (updateTask s.tasks tid
                (fun t => { t with assigned_agent := some b })) x a) [tid]).length = 0 := by
            simp [List.filter_cons, hqt]
          omega
      have h2 := hc a
      rw [hg]
      omega

/-! ## Inv3 preservation: completion, failure, scheduling -/

lemma count_filtered_le (s : OrchState) (tid : String) (ts2 : List ProjectTask) (a : String)
    (hagree : ∀ x, x ≠ tid → assignLk ts2 x a = assignLk s.tasks x a) :
    ((s.active_tasks.filter (fun x => x != tid)).filter
      (fun x => assignLk ts2 x a)).length ≤ countAssigned s a := by
  rw [List.filter_filter]
  have hcongr : ∀ x ∈ s.active_tasks,
      (assignLk ts2 x a && (x != tid)) = (assignLk s.tasks x a && (x != tid)) := by
    intro x _
    by_cases hx : x = tid
    · subst hx; simp
    · rw [hagree x hx]
  rw [List.filter_congr hcongr]
  exact filterLen_combined_le _ tid _

lemma count_filtered_lt (s : OrchState) (tid : String) (ts2 : List ProjectTask) (a : String)
    (hagree : ∀ x, x ≠ tid → assignLk ts2 x a = assignLk s.tasks x a)
    (hmem : tid ∈ s.active_tasks) (hp : assignLk s.tasks tid a = true) :
    ((s.active_tasks.filter (fun x => x != tid)).filter
      (fun x => assignLk ts2 x a)).length + 1 ≤ countAssigned s a := by
  rw [List.filter_filter]
  have hcongr : ∀ x ∈ s.active_tasks,
      (assignLk ts2 x a && (x != tid)) = (assignLk s.tasks x a && (x != tid)) := by
    intro x _
    by_cases hx : x = tid
    · subst hx; simp
    · rw [hagree x hx]
  rw [List.filter_congr hcongr]
  exact filterLen_combined_lt _ tid _ hmem hp

lemma inv3_completion (s : OrchState) (tid : String) (hmem : tid ∈ s.active_tasks)
    (h : Inv3 s) : Inv3 (handle_task_completion s tid) := by
  obtain ⟨hnd, hc⟩ := h
  rw [handle_task_completion]
  cases hf : s.tasks.find? (fun t => t.id == tid) with
  | none => exact ⟨hnd, hc⟩
  | some t =>
      dsimp only
      apply inv3_queue_ready
      have hagree : ∀ x a, assignLk
          (updateTask s.tasks tid (fun u => { u with status := ProjectStatus.completed })) x a =
          assignLk s.tasks x a :=
        fun x a => assignLk_updateTask_keep s.tasks tid _ x a (fun u => rfl) (fun u => rfl)
      cases hassign : t.assigned_agent with
      | none =>
          constructor
          · exact List.Nodup.filter _ hnd
          · intro a
            simp only [countAssigned]
            have hcount := count_filtered_le s tid _ a (fun x _ => hagree x a)
            have h2 := hc a
            omega
      | some b =>
          constructor
          · exact List.Nodup.filter _ hnd
          · intro a
            simp only [countAssigned]
            rw [getW_setW]
            by_cases hba : b = a
            · subst hba
              rw [if_pos rfl]
              have hp : assignLk s.tasks tid b = true := by
                simp [assignLk, hf, hassign]
              have hcount := count_filtered_lt s tid _ b (fun x _ => hagree x b) hmem hp
              have h2 := hc b
              omega
            · rw [if_neg hba]
              have hcount := count_filtered_le s tid _ a (fun x _ => hagree x a)
              have h2 := hc a
              omega

lemma inv3_failure (s : OrchState) (tid err : String) (hmem : tid ∈ s.active_tasks)
    (h : Inv3 s) : Inv3 (handle_task_failure s tid err) := by
  obtain ⟨hnd, hc⟩ := h
  rw [handle_task_failure]
  cases hf : s.tasks.find? (fun t => t.id == tid) with
  | none => exact ⟨hnd, hc⟩
  | some t =>
      dsimp only
      have hkeep1 : ∀ x a, assignLk
          (updateTask s.tasks tid (fun u =>
            { u with error_message := some err, retry_count := t.retry_count + 1 })) x a =
          assignLk s.tasks x a :=
        fun x a => assignLk_updateTask_keep s.tasks tid _ x a (fun u => rfl) (fun u => rfl)
      by_cases hr : t.retry_count + 1 < t.max_retries
      · rw [if_pos hr]
        have hagree : ∀ a x, x ≠ tid → assignLk
            (updateTask (updateTask s.tasks tid (fun u =>
              { u with error_message := some err, retry_count := t.retry_count + 1 })) tid
              (fun u => { u with status := ProjectStatus.pending, assigned_agent := none }))
              x a = assignLk s.tasks x a := by
          intro a x hx
          have h1 := assignLk_updateTask_other
            (updateTask s.tasks tid (fun u =>
              { u with error_message := some err, retry_count := t.retry_count + 1 }))
            tid
            (fun u => { u with status := ProjectStatus.pending, assigned_agent := none })
            x a (fun u => rfl) hx
          rw [h1, hkeep1]
        constructor
        · exact List.Nodup.filter _ hnd
        · intro a
          simp only [countAssigned]
          cases hassign : t.assigned_agent with
          | none =>
              try dsimp only
              have hcount := count_filtered_le s tid _ a (hagree a)
              have h2 := hc a
              omega
          | some b =>
              try dsimp only
              rw [getW_setW]
              by_cases hba : b = a
              · subst hba
                rw [if_pos rfl]
                have hp : assignLk s.tasks tid b = true := by
                  simp [assignLk, hf, hassign]
                have hcount := count_filtered_lt s tid _ b (hagree b) hmem hp
                have h2 := hc b
                omega
              · rw [if_neg hba]
                have hcount := count_filtered_le s tid _ a (hagree a)
                have h2 := hc a
                omega
      · rw [if_neg hr]
        have hagree : ∀ a x, x ≠ tid → assignLk
            (updateTask (updateTask s.tasks tid (fun u =>
              { u with error_message := some err, retry_count := t.retry_count + 1 })) tid
              (fun u => { u with status := ProjectStatus.failed }))
              x a = assignLk s.tasks x a := by
          intro a x hx
          have h1 := assignLk_updateTask_keep
            (updateTask s.tasks tid (fun u =>
              { u with error_message := some err, retry_count := t.retry_count + 1 }))
            tid
            (fun u => { u with status := ProjectStatus.failed })
            x a (fun u => rfl) (fun u => rfl)
          rw [h1, hkeep1]
        constructor
        · exact List.Nodup.filter _ hnd
        · intro a
          simp only [countAssigned]
          cases hassign : t.assigned_agent with
          | none =>
              try dsimp only
              have hcount := count_filtered_le s tid _ a (hagree a)
              have h2 := hc a
              omega
          | some b =>
              try dsimp only
              rw [getW_setW]
              by_cases hba : b = a
              · subst hba
                rw [if_pos rfl]
                have hp : assignLk s.tasks tid b = true := by
                  simp [assignLk, hf, hassign]
                have hcount := count_filtered_lt s tid _ b (hagree b) hmem hp
                have h2 := hc b
                omega
              · rw [if_neg hba]
                have hcount := count_filtered_le s tid _ a (hagree a)
                have h2 := hc a
                omega

lemma inv3_scheduleAux : ∀ (fuel : Nat) (s : OrchState), Inv3 s → Inv3 (scheduleAux fuel s) := by
  intro fuel
  induction fuel with
  | zero => intro s h; exact h
  | succ n ih =>
      intro s h
      rw [scheduleAux]
      cases hp : popMin s.task_queue with
      | none => exact h
      | some pr =>
          obtain ⟨e, rest⟩ := pr
          dsimp only
          have h1 : Inv3 { s with task_queue := rest } := h
          cases hfind : ({ s with task_queue := rest } : OrchState).tasks.find?
              (fun t => t.id == e.2) with
          | none => exact ih _ h1
          | some t =>
              dsimp only
              cases hfba : find_best_agent t { s with task_queue := rest } with
              | none => exact h1
              | some aid => exact ih _ (inv3_assign _ _ _ h1)

lemma inv3_schedule (s : OrchState) (h : Inv3 s) : Inv3 (schedule_ready_tasks s) :=
  inv3_scheduleAux s.task_queue.length s h

lemma inv3_response (s : OrchState) (tid st err : String) (h : Inv3 s) :
    Inv3 (handle_task_response s tid st err) := by
  rw [handle_task_response]
  by_cases hct : s.active_tasks.contains tid = true
  · rw [if_pos hct]
    have hmem : tid ∈ s.active_tasks := List.elem_iff.mp hct
    by_cases h1 : (st == "completed") = true
    · rw [if_pos h1]; exact inv3_completion s tid hmem h
    · rw [if_neg h1]
      by_cases h2 : (st == "failed") = true
      · rw [if_pos h2]; exact inv3_failure s tid err hmem h
      · rw [if_neg h2]; exact h
  · rw [if_neg hct]; exact h

/-- C3 amended: in every run that processes no StatusUpdate message, each
agent's workload counter dominates the number of active tasks assigned to
it and in particular never goes negative; it is exactly the StatusUpdate
overwrite of _handle_agent_status that breaks the claimed invariant. -/
theorem c3_workload_nonneg_amended (s0 s : OrchState) (h0 : InitOrch s0)
    (hr : ReachNS s0 s) :
    ∀ a : String, (countAssigned s a : Int) ≤ getW s.agent_workloads a ∧
      0 ≤ getW s.agent_workloads a := by
  have hinv : Inv3 s := by
    induction hr with
    | refl =>
        obtain ⟨hq, ha, ht, hw, hn⟩ := h0
        constructor
        · rw [ha]; exact List.nodup_nil
        · intro a
          unfold countAssigned
          rw [ha]
          simp only [List.filter_nil, List.length_nil, Nat.cast_zero]
          unfold getW
          cases hfind : s0.agent_workloads.find? (fun p => p.1 == a) with
          | none => simp
          | some p =>
              have hp := List.mem_of_find?_eq_some hfind
              have h2 := hw p hp
              simpa using h2
    | step t1 u1 h hs ih =>
        cases hs with
        | queue_ready => exact inv3_queue_ready t1 ih
        | schedule => exact inv3_schedule t1 ih
        | response tid st err => exact inv3_response t1 tid st err ih
  intro a
  obtain ⟨hnd, hcnt⟩ := hinv
  have h1 := hcnt a
  exact ⟨h1, by omega⟩

/-- Witness for c3_workload_nonneg_amended at the reachable state in which
the single task has just been assigned. -/
theorem c3_workload_nonneg_witness :
    (countAssigned c3s2 "a1" : Int) ≤ getW c3s2.agent_workloads "a1" ∧
    0 ≤ getW c3s2.agent_workloads "a1" :=
  c3_workload_nonneg_amended c3s0 c3s2 (by decide)
    (ReachNS.step c3s0 c3s1 c3s2
      (ReachNS.step c3s0 c3s0 c3s1 (ReachNS.refl c3s0) (OrchStepNS.queue_ready c3s0))
      (OrchStepNS.schedule c3s1)) "a1"

/-! ## Dependency-ordering invariant: basic lemmas -/

lemma depsEverDone_cons (t : ProjectTask) (x : OrchState) (trace : List OrchState)
    (h : DepsEverDone t trace) : DepsEverDone t (x :: trace) := by
  intro d hd
  obtain ⟨s, hs, hrest⟩ := h d hd
  exact ⟨s, List.mem_cons_of_mem _ hs, hrest⟩

lemma adm_sound (t : ProjectTask) (ts : List ProjectTask)
    (h : are_dependencies_met t ts = true) :
    ∀ d ∈ t.dependencies, ∃ w ∈ ts, w.id = d ∧ w.status = ProjectStatus.completed := by
  intro d hd
  unfold are_dependencies_met at h
  have h2 := (List.all_eq_true.mp h) d hd
  cases hf : ts.find? (fun u => u.id == d) with
  | none => rw [hf] at h2; exact absurd h2 (by simp)
  | some w =>
      rw [hf] at h2
      refine ⟨w, List.mem_of_find?_eq_some hf, ?_, ?_⟩
      · have hp := List.find?_some hf
        exact beq_iff_eq.mp hp
      · simpa using h2

lemma dangling_not_ready (t : ProjectTask) (ts : List ProjectTask) (d : String)
    (hd : d ∈ t.dependencies) (hnone : ∀ u ∈ ts, u.id ≠ d) :
    are_dependencies_met t ts = false := by
  by_cases h : are_dependencies_met t ts = true
  · obtain ⟨w, hw, hwid, _⟩ := adm_sound t ts h d hd
    exact absurd hwid (hnone w hw)
  · exact Bool.eq_false_iff.mpr (fun he => h he)

lemma nodup_id_unique (ts : List ProjectTask) (hnd : (ts.map (fun t => t.id)).Nodup)
    (u t : ProjectTask) (hu : u ∈ ts) (ht : t ∈ ts) (hid : u.id = t.id) : u = t :=
  List.inj_on_of_nodup_map hnd hu ht hid

lemma updateTask_ids (ts : List ProjectTask) (k : String)
    (g : ProjectTask → ProjectTask) (hid : ∀ t, (g t).id = t.id) :
    (updateTask ts k g).map (fun t => t.id) = ts.map (fun t => t.id) := by
  unfold updateTask
  rw [List.map_map]
  exact List.map_congr_left
    (fun t _ => by by_cases hk : t.id = k <;> simp [hk, hid])

lemma updateTask_corr (ts : List ProjectTask) (k : String)
    (g : ProjectTask → ProjectTask) (t' : ProjectTask) (h : t' ∈ updateTask ts k g) :
    ∃ t ∈ ts, t' = if t.id == k then g t else t := by
  unfold updateTask at h
  obtain ⟨t, ht, he⟩ := List.mem_map.mp h
  exact ⟨t, ht, he.symm⟩

lemma updateTask_mem (ts : List ProjectTask) (k : String)
    (g : ProjectTask → ProjectTask) (t : ProjectTask) (ht : t ∈ ts) :
    (if t.id == k then g t else t) ∈ updateTask ts k g :=
  List.mem_map_of_mem _ ht

lemma minEntry_mem : ∀ (l : List (Int × String)) (e : Int × String),
    minEntry e l ∈ e :: l := by
  intro l
  induction l with
  | nil => intro e; exact List.mem_cons_self _ _
  | cons x xs ih =>
      intro e
      rw [minEntry]
      by_cases h : x.1 < e.1
      · rw [if_pos h]
        exact List.mem_cons_of_mem _ (ih x)
      · rw [if_neg h]
        rcases List.mem_cons.mp (ih e) with h2 | h2
        · rw [h2]; exact List.mem_cons_self _ _
        · exact List.mem_cons_of_mem _ (List.mem_cons_of_mem _ h2)

lemma removeFirst_sub : ∀ (l : List (Int × String)) (e x : Int × String),
    x ∈ removeFirst l e → x ∈ l := by
  intro l
  induction l with
  | nil => intro e x h; exact absurd h (List.not_mem_nil x)
  | cons y ys ih =>
      intro e x h
      rw [removeFirst] at h
      by_cases hy : (y == e) = true
      · rw [if_pos hy] at h
        exact List.mem_cons_of_mem _ h
      · rw [if_neg hy] at h
        rcases List.mem_cons.mp h with h2 | h2
        · rw [h2]; exact List.mem_cons_self _ _
        · exact List.mem_cons_of_mem _ (ih e x h2)

lemma popMin_mem (q : List (Int × String)) (e : Int × String)
    (rest : List (Int × String)) (h : popMin q = some (e, rest)) : e ∈ q := by
  cases q with
  | nil => exact absurd h (by simp [popMin])
  | cons x xs =>
      simp only [popMin, Option.some.injEq, Prod.mk.injEq] at h
      rw [← h.1]
      exact minEntry_mem xs x

lemma popMin_rest_sub (q : List (Int × String)) (e : Int × String)
    (rest : List (Int × String)) (h : popMin q = some (e, rest)) :
    ∀ x ∈ rest, x ∈ q := by
  cases q with
  | nil => exact absurd h (by simp [popMin])
  | cons x xs =>
      simp only [popMin, Option.some.injEq, Prod.mk.injEq] at h
      intro y hy
      rw [← h.2] at hy
      exact removeFirst_sub _ _ _ hy

/-! ## Dependency-ordering invariant: queue_ready_tasks lemmas -/

lemma queuePut_ninv (σ : OrchState) (t : ProjectTask) (h : NInv σ) :
    NInv (queuePut σ t) := by
  have hids := updateTask_ids σ.tasks t.id
    (fun u => { u with status := ProjectStatus.in_progress }) (fun u => rfl)
  show ((updateTask σ.tasks t.id
    (fun u => { u with status := ProjectStatus.in_progress })).map (fun t => t.id)).Nodup
  rw [hids]
  exact h

lemma queuePut_completed (σ : OrchState) (t : ProjectTask) (d : String)
    (hnd : NInv σ) (hmemt : t ∈ σ.tasks) (hpend : t.status = ProjectStatus.pending)
    (hex : ∃ w ∈ σ.tasks, w.id = d ∧ w.status = ProjectStatus.completed) :
    ∃ w ∈ (queuePut σ t).tasks, w.id = d ∧ w.status = ProjectStatus.completed := by
  obtain ⟨w, hw, hwid, hwst⟩ := hex
  have hwt : ¬ w.id = t.id := by
    intro he
    have hwteq := nodup_id_unique σ.tasks hnd w t hw hmemt he
    rw [hwteq, hpend] at hwst
    exact absurd hwst (by simp)
  refine ⟨w, ?_, hwid, hwst⟩
  have hmem := updateTask_mem σ.tasks t.id
    (fun u => { u with status := ProjectStatus.in_progress }) w hw
  have hkk : (w.id == t.id) = false := beq_eq_false_iff_ne.mpr hwt
  simp only [hkk, Bool.false_eq_true, if_false] at hmem
  exact hmem

lemma queueReadyAux_ids : ∀ (l : List String) (σ : OrchState),
    (queueReadyAux l σ).tasks.map (fun t => t.id) = σ.tasks.map (fun t => t.id) := by
  intro l
  induction l with
  | nil => intro σ; rfl
  | cons tid rest ih =>
      intro σ
      rw [queueReadyAux]
      cases hf : σ.tasks.find? (fun t => t.id == tid) with
      | none => exact ih σ
      | some t =>
          dsimp only
          by_cases hc : (t.status == ProjectStatus.pending && are_dependencies_met t σ.tasks) = true
          · rw [if_pos hc, ih _]
            exact updateTask_ids σ.tasks t.id _ (fun u => rfl)
          · rw [if_neg hc]; exact ih σ

lemma queueReadyAux_ninv (l : List String) (σ : OrchState) (h : NInv σ) :
    NInv (queueReadyAux l σ) := by
  unfold NInv
  rw [queueReadyAux_ids]
  exact h

lemma queueReadyAux_task_corr : ∀ (l : List String) (σ : OrchState),
    ∀ t' ∈ (queueReadyAux l σ).tasks,
      ∃ t ∈ σ.tasks, t'.id = t.id ∧ t'.dependencies = t.dependencies ∧
        t'.assigned_agent = t.assigned_agent := by
  intro l
  induction l with
  | nil => intro σ t' h; exact ⟨t', h, rfl, rfl, rfl⟩
  | cons tid rest ih =>
      intro σ
      rw [queueReadyAux]
      cases hf : σ.tasks.find? (fun t => t.id == tid) with
      | none => exact ih σ
      | some t =>
          dsimp only
          by_cases hc : (t.status == ProjectStatus.pending && are_dependencies_met t σ.tasks) = true
          · rw [if_pos hc]
            intro t' ht'
            obtain ⟨t1, ht1, hid1, hdep1, has1⟩ := ih _ t' ht'
            obtain ⟨t0, ht0, he0⟩ := updateTask_corr σ.tasks t.id _ t1 ht1
            have hfields : t1.id = t0.id ∧ t1.dependencies = t0.dependencies ∧
                t1.assigned_agent = t0.assigned_agent := by
              rw [he0]
              by_cases hk : (t0.id == t.id) = true <;> simp [hk]
            exact ⟨t0, ht0, hid1.trans hfields.1, hdep1.trans hfields.2.1,
              has1.trans hfields.2.2⟩
          · rw [if_neg hc]; exact ih σ

lemma queueReadyAux_completed (d : String) : ∀ (l : List String) (σ : OrchState),
    NInv σ →
    (∃ w ∈ σ.tasks, w.id = d ∧ w.status = ProjectStatus.completed) →
    ∃ w ∈ (queueReadyAux l σ).tasks, w.id = d ∧ w.status = ProjectStatus.completed := by
  intro l
  induction l with
  | nil => intro σ _ h; exact h
  | cons tid rest ih =>
      intro σ hnd hex
      rw [queueReadyAux]
      cases hf : σ.tasks.find? (fun t => t.id == tid) with
      | none => exact ih σ hnd hex
      | some t =>
          dsimp only
          by_cases hc : (t.status == ProjectStatus.pending && are_dependencies_met t σ.tasks) = true
          · rw [if_pos hc]
            have hc2 := hc
            simp only [Bool.and_eq_true] at hc2
            obtain ⟨hpend, hdm⟩ := hc2
            exact ih _ (queuePut_ninv σ t hnd)
              (queuePut_completed σ t d hnd (List.mem_of_find?_eq_some hf)
                (beq_iff_eq.mp hpend) hex)
          · rw [if_neg hc]; exact ih σ hnd hex

lemma queueReadyAux_entries : ∀ (l : List String) (σ : OrchState), NInv σ →
    ∀ e ∈ (queueReadyAux l σ).task_queue,
      e ∈ σ.task_queue ∨
      ∀ u ∈ (queueReadyAux l σ).tasks, u.id = e.2 →
        ∀ d ∈ u.dependencies,
          ∃ w ∈ (queueReadyAux l σ).tasks, w.id = d ∧ w.status = ProjectStatus.completed := by
  intro l
  induction l with
  | nil => intro σ _ e he; exact Or.inl he
  | cons tid rest ih =>
      intro σ hnd e he'
      rw [queueReadyAux] at he' ⊢
      cases hf : σ.tasks.find? (fun t => t.id == tid) with
      | none =>
          rw [hf] at he'
          exact ih σ hnd e he'
      | some t =>
          rw [hf] at he'
          dsimp only at he' ⊢
          by_cases hc : (t.status == ProjectStatus.pending && are_dependencies_met t σ.tasks) = true
          · rw [if_pos hc] at he' ⊢
            have hc2 := hc
            simp only [Bool.and_eq_true] at hc2
            obtain ⟨hpend, hdm⟩ := hc2
            have hpend2 : t.status = ProjectStatus.pending := beq_iff_eq.mp hpend
            have hmemt : t ∈ σ.tasks := List.mem_of_find?_eq_some hf
            have hnd1 : NInv (queuePut σ t) := queuePut_ninv σ t hnd
            rcases ih (queuePut σ t) hnd1 e he' with hin | hright
            · have hsplit : e ∈ σ.task_queue ∨ e = (-(t.priority.value), t.id) := by
                rcases List.mem_append.mp hin with h | h
                · exact Or.inl h
                · exact Or.inr (List.mem_singleton.mp h)
              rcases hsplit with h | h
              · exact Or.inl h
              · right
                intro u hu huid d hd
                obtain ⟨u1, hu1, hid1, hdep1, _⟩ := queueReadyAux_task_corr rest _ u hu
                obtain ⟨u0, hu0, he0⟩ := updateTask_corr σ.tasks t.id _ u1 hu1
                have hu1fields : u1.id = u0.id ∧ u1.dependencies = u0.dependencies := by
                  rw [he0]
                  by_cases hk : (u0.id == t.id) = true <;> simp [hk]
                have hu0id : u0.id = t.id := by
                  have h2 : u1.id = t.id := by
                    rw [← hid1, huid, h]
                  exact hu1fields.1.symm.trans h2
                have hu0t : u0 = t := nodup_id_unique σ.tasks hnd u0 t hu0 hmemt hu0id
                have hdeps : u.dependencies = t.dependencies := by
                  rw [hdep1, hu1fields.2, hu0t]
                obtain ⟨w, hw, hwid, hwst⟩ := adm_sound t σ.tasks hdm d (hdeps ▸ hd)
                exact queueReadyAux_completed d rest _ hnd1
                  (queuePut_completed σ t d hnd hmemt hpend2 ⟨w, hw, hwid, hwst⟩)
            · exact Or.inr hright
          · rw [if_neg hc] at he' ⊢
            exact ih σ hnd e he'

/-! ## Dependency-ordering invariant: step preservation -/

lemma pinv_mono (H : List OrchState) (st x : OrchState) (h : PInv H st) :
    PInv (x :: H) st :=
  fun t ht hqa => depsEverDone_cons t x H (h t ht hqa)

lemma traceInv_id (s : OrchState) (hist : List OrchState)
    (h : TraceInv (s :: hist)) : TraceInv (s :: s :: hist) := by
  obtain ⟨hp, hq, hn⟩ := h
  exact ⟨pinv_mono _ s s hp, hq, hn⟩

lemma queue_ready_pres_P (σ : OrchState) (H : List OrchState)
    (hmemH : queue_ready_tasks σ ∈ H)
    (hp : PInv H σ) (hn : NInv σ) : PInv H (queue_ready_tasks σ) := by
  intro t' ht' hqa
  obtain ⟨t, ht, hid, hdep, has⟩ := queueReadyAux_task_corr _ σ t' ht'
  rcases hqa with ⟨e, he, heid⟩ | hassigned
  · rcases queueReadyAux_entries _ σ hn e he with hin | hright
    · have hdeps := hp t ht (Or.inl ⟨e, hin, heid.trans hid⟩)
      intro d hd
      exact hdeps d (hdep ▸ hd)
    · intro d hd
      obtain ⟨w, hw, hwid, hwst⟩ := hright t' ht' heid.symm d hd
      exact ⟨queue_ready_tasks σ, hmemH, w, hw, hwid, hwst⟩
  · have hassigned2 : t.assigned_agent ≠ none := has ▸ hassigned
    have hdeps := hp t ht (Or.inr hassigned2)
    intro d hd
    exact hdeps d (hdep ▸ hd)

lemma queue_ready_pres_Q (σ : OrchState) (hq : QInv σ) :
    QInv (queue_ready_tasks σ) := by
  intro t' ht' hact
  obtain ⟨t, ht, hid, _, has⟩ := queueReadyAux_task_corr _ σ t' ht'
  have hact2 : t.id ∈ σ.active_tasks := by
    rw [← hid]
    rw [queue_ready_tasks, queueReadyAux_active] at hact
    exact hact
  rw [has]
  exact hq t ht hact2

lemma traceInv_queue_ready (s : OrchState) (hist : List OrchState)
    (h : TraceInv (s :: hist)) :
    TraceInv (queue_ready_tasks s :: s :: hist) := by
  obtain ⟨hp, hq, hn⟩ := h
  exact ⟨queue_ready_pres_P s _ (List.mem_cons_self _ _) (pinv_mono _ s _ hp) hn,
    queue_ready_pres_Q s hq, queueReadyAux_ninv _ s hn⟩

lemma traceInv_status (s : OrchState) (hist : List OrchState)
    (sender : String) (qs : Int) (h : TraceInv (s :: hist)) :
    TraceInv (handle_agent_status s sender qs :: s :: hist) := by
  obtain ⟨hp, hq, hn⟩ := h
  exact ⟨fun t ht hqa => depsEverDone_cons t _ _ (hp t ht hqa), hq, hn⟩

lemma scheduleAux_pres (H : List OrchState) : ∀ (fuel : Nat) (st : OrchState),
    PInv H st → QInv st → NInv st →
    PInv H (scheduleAux fuel st) ∧ QInv (scheduleAux fuel st) ∧
      NInv (scheduleAux fuel st) := by
  intro fuel
  induction fuel with
  | zero => intro st hp hq hn; exact ⟨hp, hq, hn⟩
  | succ n ih =>
      intro st hp hq hn
      rw [scheduleAux]
      cases hpop : popMin st.task_queue with
      | none => exact ⟨hp, hq, hn⟩
      | some pr =>
          obtain ⟨e, rest⟩ := pr
          dsimp only
          have hemem : e ∈ st.task_queue := popMin_mem _ _ _ hpop
          have hrsub : ∀ x ∈ rest, x ∈ st.task_queue := popMin_rest_sub _ _ _ hpop
          have hp1 : PInv H { st with task_queue := rest } := by
            intro t ht hqa
            apply hp t ht
            rcases hqa with ⟨e2, he2, hid⟩ | ha
            · exact Or.inl ⟨e2, hrsub e2 he2, hid⟩
            · exact Or.inr ha
          have hq1 : QInv { st with task_queue := rest } := hq
          have hn1 : NInv { st with task_queue := rest } := hn
          cases hfind : ({ st with task_queue := rest } : OrchState).tasks.find?
              (fun t => t.id == e.2) with
          | none => exact ih _ hp1 hq1 hn1
          | some t =>
              dsimp only
              cases hfba : find_best_agent t { st with task_queue := rest } with
              | none =>
                  refine ⟨?_, hq1, hn1⟩
                  intro t2 ht2 hqa
                  apply hp t2 ht2
                  rcases hqa with ⟨e2, he2, hid⟩ | ha
                  · rcases List.mem_append.mp he2 with h2 | h2
                    · exact Or.inl ⟨e2, hrsub e2 h2, hid⟩
                    · refine Or.inl ⟨e2, ?_, hid⟩
                      rw [List.mem_singleton.mp h2]
                      exact hemem
                  · exact Or.inr ha
              | some aid =>
                  apply ih
                  · intro t2 ht2 hqa
                    obtain ⟨t0, ht0, he0⟩ := updateTask_corr st.tasks e.2 _ t2 ht2
                    by_cases hk : (t0.id == e.2) = true
                    · have ht2eq : t2 = { t0 with assigned_agent := some aid } := by
                        rw [he0, if_pos hk]
                      have hdeps := hp t0 ht0 (Or.inl ⟨e, hemem, (beq_iff_eq.mp hk).symm⟩)
                      intro d hd
                      apply hdeps d
                      rw [ht2eq] at hd
                      exact hd
                    · have ht2eq : t2 = t0 := by rw [he0, if_neg hk]
                      rw [ht2eq]
                      apply hp t0 ht0
                      rcases hqa with ⟨e2, he2, hid⟩ | ha
                      · rw [ht2eq] at hid
                        exact Or.inl ⟨e2, hrsub e2 he2, hid⟩
                      · rw [ht2eq] at ha
                        exact Or.inr ha
                  · intro t2 ht2 hact
                    obtain ⟨t0, ht0, he0⟩ := updateTask_corr st.tasks e.2 _ t2 ht2
                    by_cases hk : (t0.id == e.2) = true
                    · rw [he0, if_pos hk]
                      simp
                    · have ht2eq : t2 = t0 := by rw [he0, if_neg hk]
                      have hne : t2.id ≠ e.2 := by
                        rw [ht2eq]
                        exact fun hh => hk (beq_iff_eq.mpr hh)
                      have hrw : (assign_task_to_agent { st with task_queue := rest }
                          e.2 aid).active_tasks =
                          if st.active_tasks.contains e.2 then st.active_tasks
                          else st.active_tasks ++ [e.2] := rfl
                      rw [hrw] at hact
                      have hact0 : t2.id ∈ st.active_tasks := by
                        by_cases hct : st.active_tasks.contains e.2 = true
                        · rw [if_pos hct] at hact
                          exact hact
                        · rw [if_neg hct] at hact
                          rcases List.mem_append.mp hact with h2 | h2
                          · exact h2
                          · exact absurd (List.mem_singleton.mp h2) hne
                      rw [ht2eq]
                      rw [ht2eq] at hact0
                      exact hq t0 ht0 hact0
                  · have hids := updateTask_ids st.tasks e.2
                      (fun u => { u with assigned_agent := some aid }) (fun u => rfl)
                    show ((updateTask st.tasks e.2
                        (fun u => { u with assigned_agent := some aid })).map
                        (fun t => t.id)).Nodup
                    rw [hids]
                    exact hn

lemma traceInv_schedule (s : OrchState) (hist : List OrchState)
    (h : TraceInv (s :: hist)) :
    TraceInv (schedule_ready_tasks s :: s :: hist) := by
  obtain ⟨hp, hq, hn⟩ := h
  exact scheduleAux_pres (schedule_ready_tasks s :: s :: hist)
    s.task_queue.length s (pinv_mono _ s _ hp) hq hn

/-! ## Dependency-ordering invariant: response handling -/

lemma pinv_complete_mid (s : OrchState) (H : List OrchState) (tid : String)
    (ws : List (String × Int)) (hp : PInv H s) :
    PInv H { s with
      tasks := updateTask s.tasks tid (fun u => { u with status := ProjectStatus.completed }),
      active_tasks := s.active_tasks.filter (fun x => x != tid),
      agent_workloads := ws } := by
  intro t' ht' hqa
  obtain ⟨t0, ht0, he0⟩ := updateTask_corr s.tasks tid _ t' ht'
  have hfields : t'.id = t0.id ∧ t'.dependencies = t0.dependencies ∧
      t'.assigned_agent = t0.assigned_agent := by
    rw [he0]
    by_cases hk : (t0.id == tid) = true <;> simp [hk]
  have hqa0 : QueuedOrAssigned s t0 := by
    rcases hqa with ⟨e, he, hid⟩ | ha
    · exact Or.inl ⟨e, he, hid.trans hfields.1⟩
    · exact Or.inr (hfields.2.2 ▸ ha)
  intro d hd
  exact hp t0 ht0 hqa0 d (hfields.2.1 ▸ hd)

lemma qinv_complete_mid (s : OrchState) (tid : String) (ws : List (String × Int))
    (hq : QInv s) :
    QInv { s with
      tasks := updateTask s.tasks tid (fun u => { u with status := ProjectStatus.completed }),
      active_tasks := s.active_tasks.filter (fun x => x != tid),
      agent_workloads := ws } := by
  intro t' ht' hact
  obtain ⟨t0, ht0, he0⟩ := updateTask_corr s.tasks tid _ t' ht'
  have hfields : t'.id = t0.id ∧ t'.assigned_agent = t0.assigned_agent := by
    rw [he0]
    by_cases hk : (t0.id == tid) = true <;> simp [hk]
  have hact0 : t0.id ∈ s.active_tasks := hfields.1 ▸ (List.mem_filter.mp hact).1
  rw [hfields.2]
  exact hq t0 ht0 hact0

lemma ninv_complete_mid (s : OrchState) (tid : String) (ws : List (String × Int))
    (hn : NInv s) :
    NInv { s with
      tasks := updateTask s.tasks tid (fun u => { u with status := ProjectStatus.completed }),
      active_tasks := s.active_tasks.filter (fun x => x != tid),
      agent_workloads := ws } := by
  have hids := updateTask_ids s.tasks tid
    (fun u => { u with status := ProjectStatus.completed }) (fun u => rfl)
  show ((updateTask s.tasks tid
    (fun u => { u with status := ProjectStatus.completed })).map (fun t => t.id)).Nodup
  rw [hids]
  exact hn

lemma traceInv_completion (s : OrchState) (hist : List OrchState) (tid : String)
    (h : TraceInv (s :: hist)) :
    TraceInv (handle_task_completion s tid :: s :: hist) := by
  obtain ⟨hp, hq, hn⟩ := h
  rw [handle_task_completion]
  cases hf : s.tasks.find? (fun t => t.id == tid) with
  | none => exact traceInv_id s hist ⟨hp, hq, hn⟩
  | some t =>
      dsimp only
      cases hassign : t.assigned_agent with
      | none =>
          dsimp only
          exact ⟨queue_ready_pres_P _ _ (List.mem_cons_self _ _)
              (pinv_mono _ _ _ (pinv_complete_mid s (s :: hist) tid s.agent_workloads hp))
              (ninv_complete_mid s tid s.agent_workloads hn),
            queue_ready_pres_Q _ (qinv_complete_mid s tid s.agent_workloads hq),
            queueReadyAux_ninv _ _ (ninv_complete_mid s tid s.agent_workloads hn)⟩
      | some b =>
          dsimp only
          exact ⟨queue_ready_pres_P _ _ (List.mem_cons_self _ _)
              (pinv_mono _ _ _ (pinv_complete_mid s (s :: hist) tid _ hp))
              (ninv_complete_mid s tid _ hn),
            queue_ready_pres_Q _ (qinv_complete_mid s tid _ hq),
            queueReadyAux_ninv _ _ (ninv_complete_mid s tid _ hn)⟩

lemma pinv_fail_pending (s : OrchState) (H : List OrchState) (tid err : String)
    (rc : Nat) (prio : Int) (ws : List (String × Int))
    (hp : PInv H s) (hq : QInv s) (hmem : tid ∈ s.active_tasks) :
    PInv H {
      tasks := updateTask (updateTask s.tasks tid
          (fun u => { u with error_message := some err, retry_count := rc })) tid
          (fun u => { u with status := ProjectStatus.pending, assigned_agent := none }),
      task_queue := s.task_queue ++ [(prio, tid)],
      active_tasks := s.active_tasks.filter (fun x => x != tid),
      agents := s.agents, agent_workloads := ws } := by
  intro t' ht' hqa
  obtain ⟨t1, ht1, he1⟩ := updateTask_corr _ tid _ t' ht'
  obtain ⟨t0, ht0, he0⟩ := updateTask_corr s.tasks tid _ t1 ht1
  have hf1 : t1.id = t0.id ∧ t1.dependencies = t0.dependencies ∧
      t1.assigned_agent = t0.assigned_agent := by
    rw [he0]
    by_cases hk : (t0.id == tid) = true <;> simp [hk]
  by_cases hk : (t1.id == tid) = true
  · have ht'eq : t' = { t1 with status := ProjectStatus.pending, assigned_agent := none } := by
      rw [he1, if_pos hk]
    have ht0id : t0.id = tid := hf1.1.symm.trans (beq_iff_eq.mp hk)
    have ha0 : t0.assigned_agent ≠ none := hq t0 ht0 (ht0id ▸ hmem)
    have hdeps := hp t0 ht0 (Or.inr ha0)
    intro d hd
    apply hdeps d
    have hdd : t'.dependencies = t0.dependencies := by
      rw [ht'eq]
      exact hf1.2.1
    exact hdd ▸ hd
  · have ht'eq : t' = t1 := by rw [he1, if_neg hk]
    rcases hqa with ⟨e, he, hid⟩ | ha
    · rcases List.mem_append.mp he with h2 | h2
      · have hid0 : e.2 = t0.id := by rw [hid, ht'eq, hf1.1]
        have hdeps := hp t0 ht0 (Or.inl ⟨e, h2, hid0⟩)
        intro d hd
        apply hdeps d
        rw [ht'eq] at hd
        exact hf1.2.1 ▸ hd
      · have he2 : e.2 = tid := by rw [List.mem_singleton.mp h2]
        have hteq : t1.id = tid := by rw [← ht'eq, ← hid, he2]
        exact absurd (beq_iff_eq.mpr hteq) hk
    · have ha0 : t0.assigned_agent ≠ none := by
        rw [ht'eq] at ha
        exact hf1.2.2 ▸ ha
      have hdeps := hp t0 ht0 (Or.inr ha0)
      intro d hd
      apply hdeps d
      rw [ht'eq] at hd
      exact hf1.2.1 ▸ hd

lemma qinv_fail_pending (s : OrchState) (tid err : String)
    (rc : Nat) (prio : Int) (ws : List (String × Int)) (hq : QInv s) :
    QInv {
      tasks := updateTask (updateTask s.tasks tid
          (fun u => { u with error_message := some err, retry_count := rc })) tid
          (fun u => { u with status := ProjectStatus.pending, assigned_agent := none }),
      task_queue := s.task_queue ++ [(prio, tid)],
      active_tasks := s.active_tasks.filter (fun x => x != tid),
      agents := s.agents, agent_workloads := ws } := by
  intro t' ht' hact
  obtain ⟨t1, ht1, he1⟩ := updateTask_corr _ tid _ t' ht'
  obtain ⟨t0, ht0, he0⟩ := updateTask_corr s.tasks tid _ t1 ht1
  have hf1 : t1.id = t0.id ∧ t1.assigned_agent = t0.assigned_agent := by
    rw [he0]
    by_cases hk : (t0.id == tid) = true <;> simp [hk]
  have hmemf := List.mem_filter.mp hact
  have hne : t'.id ≠ tid := by
    have := hmemf.2
    exact bne_iff_ne.mp this
  by_cases hk : (t1.id == tid) = true
  · have ht'id : t'.id = t1.id := by
      rw [he1, if_pos hk]
    exact absurd (ht'id.trans (beq_iff_eq.mp hk)) hne
  · have ht'eq : t' = t1 := by rw [he1, if_neg hk]
    have hact0 : t0.id ∈ s.active_tasks := by
      have h2 := hmemf.1
      rw [ht'eq] at h2
      exact hf1.1 ▸ h2
    rw [ht'eq, hf1.2]
    exact hq t0 ht0 hact0

lemma ninv_double_update (s : OrchState) (tid : String)
    (g1 g2 : ProjectTask → ProjectTask)
    (hid1 : ∀ t, (g1 t).id = t.id) (hid2 : ∀ t, (g2 t).id = t.id) (hn : NInv s) :
    ((updateTask (updateTask s.tasks tid g1) tid g2).map (fun t => t.id)).Nodup := by
  rw [updateTask_ids _ tid g2 hid2, updateTask_ids _ tid g1 hid1]
  exact hn

lemma pinv_fail_failed (s : OrchState) (H : List OrchState) (tid err : String)
    (rc : Nat) (ws : List (String × Int)) (hp : PInv H s) :
    PInv H {
      tasks := updateTask (updateTask s.tasks tid
          (fun u => { u with error_message := some err, retry_count := rc })) tid
          (fun u => { u with status := ProjectStatus.failed }),
      task_queue := s.task_queue,
      active_tasks := s.active_tasks.filter (fun x => x != tid),
      agents := s.agents, agent_workloads := ws } := by
  intro t' ht' hqa
  obtain ⟨t1, ht1, he1⟩ := updateTask_corr _ tid _ t' ht'
  obtain ⟨t0, ht0, he0⟩ := updateTask_corr s.tasks tid _ t1 ht1
  have hf1 : t1.id = t0.id ∧ t1.dependencies = t0.dependencies ∧
      t1.assigned_agent = t0.assigned_agent := by
    rw [he0]
    by_cases hk : (t0.id == tid) = true <;> simp [hk]
  have hf2 : t'.id = t1.id ∧ t'.dependencies = t1.dependencies ∧
      t'.assigned_agent = t1.assigned_agent := by
    rw [he1]
    by_cases hk : (t1.id == tid) = true <;> simp [hk]
  have hqa0 : QueuedOrAssigned s t0 := by
    rcases hqa with ⟨e, he, hid⟩ | ha
    · exact Or.inl ⟨e, he, hid.trans (hf2.1.trans hf1.1)⟩
    · exact Or.inr (hf1.2.2 ▸ hf2.2.2 ▸ ha)
  intro d hd
  exact hp t0 ht0 hqa0 d (hf1.2.1 ▸ hf2.2.1 ▸ hd)

lemma qinv_fail_failed (s : OrchState) (tid err : String)
    (rc : Nat) (ws : List (String × Int)) (hq : QInv s) :
    QInv {
      tasks := updateTask (updateTask s.tasks tid
          (fun u => { u with error_message := some err, retry_count := rc })) tid
          (fun u => { u with status := ProjectStatus.failed }),
      task_queue := s.task_queue,
      active_tasks := s.active_tasks.filter (fun x => x != tid),
      agents := s.agents, agent_workloads := ws } := by
  intro t' ht' hact
  obtain ⟨t1, ht1, he1⟩ := updateTask_corr _ tid _ t' ht'
  obtain ⟨t0, ht0, he0⟩ := updateTask_corr s.tasks tid _ t1 ht1
  have hf1 : t1.id = t0.id ∧ t1.assigned_agent = t0.assigned_agent := by
    rw [he0]
    by_cases hk : (t0.id == tid) = true <;> simp [hk]
  have hf2 : t'.id = t1.id ∧ t'.assigned_agent = t1.assigned_agent := by
    rw [he1]
    by_cases hk : (t1.id == tid) = true <;> simp [hk]
  have hact0 : t0.id ∈ s.active_tasks := by
    have h2 := (List.mem_filter.mp hact).1
    rw [hf2.1, hf1.1] at h2
    exact h2
  rw [hf2.2, hf1.2]
  exact hq t0 ht0 hact0

lemma traceInv_failure (s : OrchState) (hist : List OrchState) (tid err : String)
    (hmem : tid ∈ s.active_tasks) (h : TraceInv (s :: hist)) :
    TraceInv (handle_task_failure s tid err :: s :: hist) := by
  obtain ⟨hp, hq, hn⟩ := h
  rw [handle_task_failure]
  cases hf : s.tasks.find? (fun t => t.id == tid) with
  | none => exact traceInv_id s hist ⟨hp, hq, hn⟩
  | some t =>
      dsimp only
      by_cases hr : t.retry_count + 1 < t.max_retries
      · rw [if_pos hr]
        exact ⟨pinv_mono _ _ _ (pinv_fail_pending s (s :: hist) tid err
            (t.retry_count + 1) (-(t.priority.value - 1)) _ hp hq hmem),
          qinv_fail_pending s tid err (t.retry_count + 1) (-(t.priority.value - 1)) _ hq,
          ninv_double_update s tid _ _ (fun u => rfl) (fun u => rfl) hn⟩
      · rw [if_neg hr]
        exact ⟨pinv_mono _ _ _ (pinv_fail_failed s (s :: hist) tid err
            (t.retry_count + 1) _ hp),
          qinv_fail_failed s tid err (t.retry_count + 1) _ hq,
          ninv_double_update s tid _ _ (fun u => rfl) (fun u => rfl) hn⟩

lemma traceInv_response (s : OrchState) (hist : List OrchState) (tid st err : String)
    (h : TraceInv (s :: hist)) :
    TraceInv (handle_task_response s tid st err :: s :: hist) := by
  rw [handle_task_response]
  by_cases hct : s.active_tasks.contains tid = true
  · rw [if_pos hct]
    have hmem : tid ∈ s.active_tasks := List.elem_iff.mp hct
    by_cases h1 : (st == "completed") = true
    · rw [if_pos h1]
      exact traceInv_completion s hist tid h
    · rw [if_neg h1]
      by_cases h2 : (st == "failed") = true
      · rw [if_pos h2]
        exact traceInv_failure s hist tid err hmem h
      · rw [if_neg h2]
        exact traceInv_id s hist h
  · rw [if_neg hct]
    exact traceInv_id s hist h

lemma traceInv_rtrace : ∀ (tr : List OrchState), RTrace tr → TraceInv tr := by
  intro tr h
  induction h with
  | init s0 h0 =>
      obtain ⟨hqueue, hact, htasks, hw, hnd⟩ := h0
      refine ⟨?_, ?_, hnd⟩
      · intro t ht hqa
        rcases hqa with ⟨e, he, _⟩ | ha
        · rw [hqueue] at he
          exact absurd he (List.not_mem_nil e)
        · exact absurd (htasks t ht).2 ha
      · intro t ht hact2
        rw [hact] at hact2
        exact absurd hact2 (List.not_mem_nil _)
  | step s t hist hh hs ih =>
      cases hs with
      | queue_ready => exact traceInv_queue_ready s hist ih
      | schedule => exact traceInv_schedule s hist ih
      | response tid st err => exact traceInv_response s hist tid st err ih
      | status_update sender qs => exact traceInv_status s hist sender qs ih

/-! ## The set of task ids is constant along a trace -/

lemma queue_ready_ids (s : OrchState) :
    (queue_ready_tasks s).tasks.map (fun t => t.id) = s.tasks.map (fun t => t.id) :=
  queueReadyAux_ids _ s

lemma scheduleAux_ids : ∀ (fuel : Nat) (s : OrchState),
    (scheduleAux fuel s).tasks.map (fun t => t.id) = s.tasks.map (fun t => t.id) := by
  intro fuel
  induction fuel with
  | zero => intro s; rfl
  | succ n ih =>
      intro s
      rw [scheduleAux]
      cases hp : popMin s.task_queue with
      | none => rfl
      | some pr =>
          obtain ⟨e, rest⟩ := pr
          dsimp only
          cases hfind : ({ s with task_queue := rest } : OrchState).tasks.find?
              (fun t => t.id == e.2) with
          | none => exact ih _
          | some t =>
              dsimp only
              cases hfba : find_best_agent t { s with task_queue := rest } with
              | none => rfl
              | some aid =>
                  rw [ih]
                  exact updateTask_ids s.tasks e.2
                    (fun u => { u with assigned_agent := some aid }) (fun u => rfl)

lemma schedule_ids (s : OrchState) :
    (schedule_ready_tasks s).tasks.map (fun t => t.id) = s.tasks.map (fun t => t.id) :=
  scheduleAux_ids s.task_queue.length s

lemma completion_ids (s : OrchState) (tid : String) :
    (handle_task_completion s tid).tasks.map (fun t => t.id) =
      s.tasks.map (fun t => t.id) := by
  rw [handle_task_completion]
  cases hf : s.tasks.find? (fun t => t.id == tid) with
  | none => rfl
  | some t =>
      dsimp only
      cases hassign : t.assigned_agent with
      | none =>
          dsimp only
          rw [queue_ready_ids]
          exact updateTask_ids s.tasks tid
            (fun u => { u with status := ProjectStatus.completed }) (fun u => rfl)
      | some b =>
          dsimp only
          rw [queue_ready_ids]
          exact updateTask_ids s.tasks tid
            (fun u => { u with status := ProjectStatus.completed }) (fun u => rfl)

lemma failure_ids (s : OrchState) (tid err : String) :
    (handle_task_failure s tid err).tasks.map (fun t => t.id) =
      s.tasks.map (fun t => t.id) := by
  rw [handle_task_failure]
  cases hf : s.tasks.find? (fun t => t.id == tid) with
  | none => rfl
  | some t =>
      dsimp only
      by_cases hr : t.retry_count + 1 < t.max_retries
      · rw [if_pos hr]
        show ((updateTask (updateTask s.tasks tid _) tid _).map (fun u => u.id)) = _
        rw [updateTask_ids _ tid
            (fun u => { u with status := ProjectStatus.pending, assigned_agent := none })
            (fun u => rfl),
          updateTask_ids _ tid
            (fun u => { u with error_message := some err, retry_count := t.retry_count + 1 })
            (fun u => rfl)]
      · rw [if_neg hr]
        show ((updateTask (updateTask s.tasks tid _) tid _).map (fun u => u.id)) = _
        rw [updateTask_ids _ tid
            (fun u => { u with status := ProjectStatus.failed })
            (fun u => rfl),
          updateTask_ids _ tid
            (fun u => { u with error_message := some err, retry_count := t.retry_count + 1 })
            (fun u => rfl)]

lemma response_ids (s : OrchState) (tid st err : String) :
    (handle_task_response s tid st err).tasks.map (fun t => t.id) =
      s.tasks.map (fun t => t.id) := by
  rw [handle_task_response]
  by_cases hct : s.active_tasks.contains tid = true
  · rw [if_pos hct]
    by_cases h1 : (st == "completed") = true
    · rw [if_pos h1]
      exact completion_ids s tid
    · rw [if_neg h1]
      by_cases h2 : (st == "failed") = true
      · rw [if_pos h2]
        exact failure_ids s tid err
      · rw [if_neg h2]
  · rw [if_neg hct]

lemma orchStep_ids (s t : OrchState) (h : OrchStep s t) :
    t.tasks.map (fun u => u.id) = s.tasks.map (fun u => u.id) := by
  cases h with
  | queue_ready => exact queue_ready_ids s
  | schedule => exact schedule_ids s
  | response tid st err => exact response_ids s tid st err
  | status_update sender qs => rfl

lemma rtrace_ids_aux : ∀ (tr : List OrchState), RTrace tr →
    ∀ x ∈ tr, ∀ y ∈ tr,
      x.tasks.map (fun u => u.id) = y.tasks.map (fun u => u.id) := by
  intro tr h
  induction h with
  | init s0 h0 =>
      intro x hx y hy
      rw [List.mem_singleton.mp hx, List.mem_singleton.mp hy]
  | step s t hist hh hs ih =>
      have key : ∀ x ∈ t :: s :: hist,
          x.tasks.map (fun u => u.id) = s.tasks.map (fun u => u.id) := by
        intro x hx
        rcases List.mem_cons.mp hx with h1 | h1
        · rw [h1]
          exact orchStep_ids s t hs
        · exact ih x h1 s (List.mem_cons_self _ _)
      intro x hx y hy
      rw [key x hx, key y hy]

/-- C1: along every orchestrator trace, an assigned task's dependencies
have each named a task of the project that reached status COMPLETED at
some point of the trace (so assignment never precedes dependency
completion), and a task with a dangling dependency id is never ready and
never assigned. -/
theorem c1_dependency_ordering (hist : List OrchState) (cur : OrchState)
    (htr : RTrace (cur :: hist)) (t : ProjectTask) (ht : t ∈ cur.tasks) :
    (t.assigned_agent ≠ none →
      ∀ d ∈ t.dependencies,
        (∃ s ∈ cur :: hist, ∃ u ∈ s.tasks,
          u.id = d ∧ u.status = ProjectStatus.completed) ∧
        ∃ u ∈ cur.tasks, u.id = d) ∧
    ((∃ d ∈ t.dependencies, ∀ u ∈ cur.tasks, u.id ≠ d) →
      are_dependencies_met t cur.tasks = false ∧ t.assigned_agent = none) := by
  obtain ⟨hp, hq, hn⟩ := traceInv_rtrace (cur :: hist) htr
  constructor
  · intro ha d hd
    obtain ⟨s, hs, u, hu, hid, hst⟩ := hp t ht (Or.inr ha) d hd
    refine ⟨⟨s, hs, u, hu, hid, hst⟩, ?_⟩
    have hkey := rtrace_ids_aux (cur :: hist) htr s hs cur (List.mem_cons_self _ _)
    have hmm : u.id ∈ cur.tasks.map (fun w => w.id) := by
      rw [← hkey]
      exact List.mem_map_of_mem _ hu
    obtain ⟨v, hv, hvid⟩ := List.mem_map.mp hmm
    exact ⟨v, hv, hvid.trans hid⟩
  · rintro ⟨d, hd, hnone⟩
    refine ⟨dangling_not_ready t cur.tasks d hd hnone, ?_⟩
    by_contra ha
    obtain ⟨s, hs, u, hu, hid, _⟩ := hp t ht (Or.inr ha) d hd
    have hkey := rtrace_ids_aux (cur :: hist) htr s hs cur (List.mem_cons_self _ _)
    have hmm : u.id ∈ cur.tasks.map (fun w => w.id) := by
      rw [← hkey]
      exact List.mem_map_of_mem _ hu
    obtain ⟨v, hv, hvid⟩ := List.mem_map.mp hmm
    exact hnone v hv (hvid.trans hid)

/-- Witness for the C1 theorem on a concrete run: after t1 completes and a
second scheduling pass assigns t2, the trace contains the completion of
the dependency t1, and t1 still names a task of the current state. -/
theorem c1_dependency_ordering_witness :
    RTrace [c1s4, c1s3, c1s2, c1s1, c1s0] ∧
    ∃ t ∈ c1s4.tasks, t.assigned_agent ≠ none ∧
      (∃ s ∈ [c1s4, c1s3, c1s2, c1s1, c1s0], ∃ u ∈ s.tasks,
        u.id = "t1" ∧ u.status = ProjectStatus.completed) ∧
      ∃ u ∈ c1s4.tasks, u.id = "t1" := by
  have htr : RTrace [c1s4, c1s3, c1s2, c1s1, c1s0] :=
    RTrace.step _ _ _
      (RTrace.step _ _ _
        (RTrace.step _ _ _
          (RTrace.step _ _ _ (RTrace.init c1s0 (by decide))
            (OrchStep.queue_ready c1s0))
          (OrchStep.schedule c1s1))
        (OrchStep.response c1s2 "t1" "completed" ""))
      (OrchStep.schedule c1s3)
  obtain ⟨t, ht, hdeps, ha⟩ :=
    (by decide : ∃ t ∈ c1s4.tasks, t.dependencies = ["t1"] ∧ t.assigned_agent ≠ none)
  have happ := (c1_dependency_ordering [c1s3, c1s2, c1s1, c1s0] c1s4 htr t ht).1 ha
    "t1" (by rw [hdeps]; exact List.mem_singleton.mpr rfl)
  exact ⟨htr, t, ht, ha, happ.1, happ.2⟩
